import Mathlib

/-!
Verification of the `yolo-tiling` utilities (`create_projection_files.py` and
`vis_yolo_annotation.py`) against their specification.

Modelling conventions:
* Python strings are modelled as `String` / `List Char`; the handful of string
  primitives the scripts use (`str.strip`, `str.split`, `str.replace`) are
  re-implemented over `List Char` with Python semantics.
* Python floats are modelled as exact rationals (`ℚ`); float literals are the
  finite decimal/scientific numerals the scripts actually handle (the exotic
  `inf`/`nan`/underscore forms accepted by Python's `float()` are outside the
  modelled domain).
* Python ints are `ℤ` (tile indices parsed from digit runs are `ℕ`).
* `xml.etree.ElementTree` trees are modelled by the inductive `XML`; element
  mutation becomes pure tree rewriting, and the imperative main loop becomes a
  fold over an explicit run state.
-/

/-- Python `str.isspace` characters relevant to `str.strip()` / `str.split()`:
space, tab, newline, carriage return, vertical tab, form feed. -/
def pyIsSpace (c : Char) : Bool :=
  c = ' ' || c = '\t' || c = '\n' || c = '\r' || c = '\x0b' || c = '\x0c'

/-- Python `str.strip()` on a character list: drop whitespace from both ends. -/
def pyStripChars (l : List Char) : List Char :=
  ((l.dropWhile pyIsSpace).reverse.dropWhile pyIsSpace).reverse

/-- Python `str.strip()` on a `String`. -/
def pyStrip (s : String) : String :=
  ⟨pyStripChars s.data⟩

/-- Hexadecimal character class of the regex `[0-9a-fA-F]`. -/
def isHexChar (c : Char) : Bool :=
  ('0' ≤ c && c ≤ '9') || ('a' ≤ c && c ≤ 'f') || ('A' ≤ c && c ≤ 'F')

/-- Decimal value of a digit run (Python `int` applied to literal digits;
leading zeros allowed). -/
def digitsToNat (l : List Char) : ℕ :=
  l.foldl (fun a c => 10 * a + (c.toNat - 48)) 0

/-- GDAL 6-coefficient affine geotransform, one field per coefficient
`GT0 .. GT5` of the Python tuple.  Coefficients are Python floats, modelled as
exact rationals. -/
structure GT6 where
  gt0 : ℚ
  gt1 : ℚ
  gt2 : ℚ
  gt3 : ℚ
  gt4 : ℚ
  gt5 : ℚ
deriving DecidableEq, Repr

/-- Embedding of `shifted_geotransform(gt, col_off_px, row_off_px)`
(create_projection_files.py lines 93-104): translate the origin coefficients
through the transform, keep the scale/rotation coefficients. -/
def shifted_geotransform (gt : GT6) (col_off_px row_off_px : ℤ) : GT6 :=
  { gt0 := gt.gt0 + (col_off_px : ℚ) * gt.gt1 + (row_off_px : ℚ) * gt.gt2
    gt1 := gt.gt1
    gt2 := gt.gt2
    gt3 := gt.gt3 + (col_off_px : ℚ) * gt.gt4 + (row_off_px : ℚ) * gt.gt5
    gt4 := gt.gt4
    gt5 := gt.gt5 }

/-- C1: for every reference geotransform and tile indices `(row, col)` with
stride `s`, the tile transform produced by `shifted_geotransform` at pixel
offsets `col_off = col*s`, `row_off = row*s` has translation terms
`GT0 + col*s*GT1 + row*s*GT2` and `GT3 + col*s*GT4 + row*s*GT5` and leaves the
four scale/rotation coefficients unchanged; in particular for `row = 2`,
`col = 3`, stride `512` the translations are `GT0 + 3*512*GT1 + 2*512*GT2` and
`GT3 + 3*512*GT4 + 2*512*GT5` (exact arithmetic). -/
theorem C1_shifted_geotransform_translation :
    (∀ (gt : GT6) (row col s : ℤ),
      shifted_geotransform gt (col * s) (row * s) =
        { gt0 := gt.gt0 + (col : ℚ) * (s : ℚ) * gt.gt1 + (row : ℚ) * (s : ℚ) * gt.gt2
          gt1 := gt.gt1
          gt2 := gt.gt2
          gt3 := gt.gt3 + (col : ℚ) * (s : ℚ) * gt.gt4 + (row : ℚ) * (s : ℚ) * gt.gt5
          gt4 := gt.gt4
          gt5 := gt.gt5 }) ∧
    (∀ gt : GT6,
      shifted_geotransform gt (3 * 512) (2 * 512) =
        { gt0 := gt.gt0 + 3 * 512 * gt.gt1 + 2 * 512 * gt.gt2
          gt1 := gt.gt1
          gt2 := gt.gt2
          gt3 := gt.gt3 + 3 * 512 * gt.gt4 + 2 * 512 * gt.gt5
          gt4 := gt.gt4
          gt5 := gt.gt5 }) := by
  constructor
  · intro gt row col s
    simp only [shifted_geotransform, GT6.mk.injEq]
    push_cast
    refine ⟨by ring, trivial, trivial, by ring, trivial, trivial⟩
  · intro gt
    simp only [shifted_geotransform, GT6.mk.injEq]
    norm_num

/-! ### List helper lemmas for the filename regex embeddings -/

theorem takeWhile_eq_self_of_all {α : Type} {p : α → Bool} :
    ∀ l : List α, l.all p = true → l.takeWhile p = l := by
  intro l h
  induction l with
  | nil => rfl
  | cons a t ih =>
      simp only [List.all_cons, Bool.and_eq_true] at h
      simp [List.takeWhile_cons, h.1, ih h.2]

theorem takeWhile_append_stop {α : Type} {p : α → Bool} (xs : List α) (y : α)
    (ys : List α) (hxs : xs.all p = true) (hy : p y = false) :
    (xs ++ y :: ys).takeWhile p = xs := by
  induction xs with
  | nil => simp [List.takeWhile_cons, hy]
  | cons a t ih =>
      simp only [List.all_cons, Bool.and_eq_true] at hxs
      simp [List.takeWhile_cons, hxs.1, ih hxs.2]

theorem all_takeWhile_self {α : Type} (p : α → Bool) :
    ∀ l : List α, (l.takeWhile p).all p = true := by
  intro l
  induction l with
  | nil => rfl
  | cons a t ih =>
      by_cases h : p a = true
      · simp [List.takeWhile_cons, h, ih]
      · simp [List.takeWhile_cons, Bool.eq_false_iff.mpr h]

theorem takeWhile_drop_decomp {α : Type} (p : α → Bool) (l : List α) :
    l = l.takeWhile p ++ l.drop (l.takeWhile p).length := by
  obtain ⟨t, ht⟩ := List.takeWhile_prefix (l := l) p
  have hd := List.drop_left (l.takeWhile p) t
  rw [ht] at hd
  rw [hd]
  exact ht.symm

/-! ### Filename parsing (create_projection_files.py lines 13-27) -/

/-- Test for a match of the anchored regex `LEADING_WEIRD = r"^[0-9a-fA-F]{8}-"`
(create_projection_files.py line 13): the list starts with exactly eight
hexadecimal characters followed by a hyphen. -/
def hasLeadingWeird (l : List Char) : Bool :=
  decide (9 ≤ l.length) && ((l.take 8).all isHexChar) && (l.get? 8 == some '-')

/-- Embedding of `normalize_stem(stem) = LEADING_WEIRD.sub("", stem)`
(create_projection_files.py lines 19-20): the `^`-anchored pattern matches at
most once, at the start, so the substitution removes the first nine characters
when they match and is the identity otherwise. -/
def normalize_stem (s : String) : String :=
  if hasLeadingWeird s.data then ⟨s.data.drop 9⟩ else s

theorem hasLeadingWeird_append (p r : List Char) (hp : p.length = 8)
    (hall : p.all isHexChar = true) :
    hasLeadingWeird (p ++ '-' :: r) = true ∧ (p ++ '-' :: r).drop 9 = r := by
  have h1 : (9 : ℕ) ≤ (p ++ '-' :: r).length := by
    simp only [List.length_append, List.length_cons, hp]
    omega
  have h2 : ((p ++ '-' :: r).take 8).all isHexChar = true := by
    rw [← hp, List.take_left]
    exact hall
  have h3 : (p ++ '-' :: r).get? 8 = some '-' := by
    rw [List.get?_eq_getElem?, ← hp, List.getElem?_append_right (le_refl _)]
    simp
  constructor
  · unfold hasLeadingWeird
    rw [Bool.and_eq_true, Bool.and_eq_true]
    exact ⟨⟨decide_eq_true h1, h2⟩, beq_iff_eq.mpr h3⟩
  · have h9 : (9 : ℕ) = p.length + 1 := by omega
    rw [h9, ← List.drop_drop, List.drop_left]
    rfl

theorem hasLeadingWeird_decomp (l : List Char) (h : hasLeadingWeird l = true) :
    ∃ p r : List Char, l = p ++ '-' :: r ∧ p.length = 8 ∧ p.all isHexChar = true ∧
      r = l.drop 9 := by
  unfold hasLeadingWeird at h
  rw [Bool.and_eq_true, Bool.and_eq_true] at h
  obtain ⟨⟨h1, h2⟩, h3⟩ := h
  have hlen : 9 ≤ l.length := of_decide_eq_true h1
  have h8 : 8 < l.length := by omega
  have hget : l.get? 8 = some '-' := eq_of_beq h3
  rw [List.get?_eq_getElem?] at hget
  have hsome : l[8]? = some l[8] := List.getElem?_eq_getElem h8
  have hgot : l[8] = '-' := by
    rw [hsome] at hget
    exact Option.some.inj hget
  refine ⟨l.take 8, l.drop 9, ?_, List.length_take_of_le (by omega), h2, rfl⟩
  have hdec : l.drop 8 = l[8] :: l.drop 9 := List.drop_eq_getElem_cons h8
  conv_lhs => rw [← List.take_append_drop 8 l]
  rw [hdec, hgot]

/-- C7: `normalize_stem` removes exactly the first nine characters of a stem
that begins with eight hexadecimal characters followed by a hyphen (the rest of
the stem is returned unchanged), and returns any other stem unchanged. -/
theorem C7_normalize_stem :
    ∀ s : String,
      (∀ p r : String, s = p ++ "-" ++ r → p.length = 8 →
        p.data.all isHexChar = true →
        normalize_stem s = r ∧ normalize_stem s = ⟨s.data.drop 9⟩) ∧
      ((¬ ∃ p r : String, s = p ++ "-" ++ r ∧ p.length = 8 ∧
          p.data.all isHexChar = true) →
        normalize_stem s = s) := by
  intro s
  constructor
  · intro p r hs hlen hhex
    have hdata : s.data = p.data ++ '-' :: r.data := by
      rw [hs, String.data_append, String.data_append, List.append_assoc]
      rfl
    have hplen : p.data.length = 8 := hlen
    obtain ⟨hw, hdrop⟩ := hasLeadingWeird_append p.data r.data hplen hhex
    have h1 : normalize_stem s = ⟨s.data.drop 9⟩ := by
      unfold normalize_stem
      rw [hdata, hw]
      simp [hdata]
    refine ⟨?_, h1⟩
    rw [h1, hdata, hdrop]
  · intro hno
    unfold normalize_stem
    by_cases hw : hasLeadingWeird s.data = true
    · exfalso
      obtain ⟨p, r, hpr, hplen, hphex, _⟩ := hasLeadingWeird_decomp s.data hw
      refine hno ⟨⟨p⟩, ⟨r⟩, ?_, hplen, hphex⟩
      apply String.ext
      rw [hpr, String.data_append, String.data_append, List.append_assoc]
      rfl
    · simp [hw]

/-- C7 witness: the spec's example stem, and a stem with no such leading
pattern, evaluated concretely through `C7_normalize_stem`. -/
theorem C7_normalize_stem_witness :
    normalize_stem "ffbdc372-20210911_x.jpg" = "20210911_x.jpg" ∧
    normalize_stem "20210911_x.jpg" = "20210911_x.jpg" := by
  constructor
  · exact ((C7_normalize_stem "ffbdc372-20210911_x.jpg").1 "ffbdc372"
      "20210911_x.jpg" (by decide) (by decide) (by decide)).1
  · refine (C7_normalize_stem "20210911_x.jpg").2 ?_
    rintro ⟨p, r, hpr, hplen, hphex⟩
    have hd : ("20210911_x.jpg" : String).data = p.data ++ '-' :: r.data := by
      rw [hpr, String.data_append, String.data_append, List.append_assoc]
      rfl
    have hw := (hasLeadingWeird_append p.data r.data hplen hphex).1
    rw [← hd] at hw
    exact absurd hw (by decide)

/-- One step of matching `r"_(\d+)"` backwards: on a reversed character list,
take the maximal leading digit run; it must be non-empty and followed by `_`.
Returns the run (still reversed) and the remainder after the underscore. -/
def revTail (l : List Char) : Option (List Char × List Char) :=
  let run := l.takeWhile Char.isDigit
  let rest := l.drop run.length
  if run.isEmpty then none
  else
    match rest with
    | c :: rest1 => if c = '_' then some (run, rest1) else none
    | [] => none

/-- Embedding of `LAST_TWO.search(stem)` for
`LAST_TWO = re.compile(r"_(?P<a>\d+)_(?P<b>\d+)$")`
(create_projection_files.py lines 14, 23-27).  Because the pattern is anchored
at the end and `\d+` runs cannot extend past a non-digit, the leftmost match of
`re.search` is determined from the end of the string: `b` is the maximal
trailing digit run, which must be non-empty and preceded by `_`; `a` is the
maximal digit run before that underscore, which must be non-empty and preceded
by `_`. -/
def matchLastTwo (l : List Char) : Option (ℕ × ℕ) :=
  match revTail l.reverse with
  | none => none
  | some (bRev, rest1) =>
    match revTail rest1 with
    | none => none
    | some (aRev, _) => some (digitsToNat aRev.reverse, digitsToNat bRev.reverse)

/-- Embedding of `parse_last_two(stem)` (create_projection_files.py
lines 23-27): the two trailing integers of a tile stem, or `None`. -/
def parse_last_two (stem : String) : Option (ℕ × ℕ) :=
  matchLastTwo stem.data

/-- Row/column interpretation of the parsed pair in `main`
(create_projection_files.py lines 182-186): with `--swap-rowcol` the pair is
`(col, row)`, otherwise `(row, col)`; returns `(tile_row, tile_col)`. -/
def rowColOf (swapRowcol : Bool) (ab : ℕ × ℕ) : ℕ × ℕ :=
  if swapRowcol then (ab.2, ab.1) else ab

theorem revTail_spec_pos (run rest1 : List Char) (hrun : run ≠ [])
    (hd : run.all Char.isDigit = true) :
    revTail (run ++ '_' :: rest1) = some (run, rest1) := by
  have htw : (run ++ '_' :: rest1).takeWhile Char.isDigit = run :=
    takeWhile_append_stop _ _ _ hd (by decide)
  have hdrop : (run ++ '_' :: rest1).drop run.length = '_' :: rest1 :=
    List.drop_left _ _
  have hne : run.isEmpty = false := by
    cases run with
    | nil => exact absurd rfl hrun
    | cons a t => rfl
  unfold revTail
  simp only [htw, hdrop, hne, Bool.false_eq_true, if_false]
  simp

theorem revTail_some (l run rest1 : List Char)
    (h : revTail l = some (run, rest1)) :
    run ≠ [] ∧ run.all Char.isDigit = true ∧ l = run ++ '_' :: rest1 := by
  unfold revTail at h
  simp only at h
  by_cases he : (l.takeWhile Char.isDigit).isEmpty = true
  · rw [if_pos he] at h
    exact absurd h (by simp)
  · rw [if_neg he] at h
    cases hd : l.drop (l.takeWhile Char.isDigit).length with
    | nil =>
        rw [hd] at h
        exact absurd h (by simp)
    | cons c rest1' =>
        rw [hd] at h
        simp only at h
        by_cases hc : c = '_'
        · rw [if_pos hc] at h
          have hrun : run = l.takeWhile Char.isDigit := by
            have := (Option.some.inj h)
            exact (Prod.mk.injEq _ _ _ _ ▸ this).1.symm
          have hrest : rest1 = rest1' := by
            have := (Option.some.inj h)
            exact (Prod.mk.injEq _ _ _ _ ▸ this).2.symm
          refine ⟨?_, ?_, ?_⟩
          · rw [hrun]
            intro hnil
            rw [hnil] at he
            exact he rfl
          · rw [hrun]
            exact all_takeWhile_self Char.isDigit l
          · have hdec := takeWhile_drop_decomp Char.isDigit l
            rw [hd, hc] at hdec
            rw [hdec, hrun, hrest]
        · rw [if_neg hc] at h
          exact absurd h (by simp)

theorem matchLastTwo_of_shape (p A B : List Char) (hA : A ≠ [])
    (hAd : A.all Char.isDigit = true) (hB : B ≠ [])
    (hBd : B.all Char.isDigit = true) :
    matchLastTwo (p ++ '_' :: A ++ '_' :: B) = some (digitsToNat A, digitsToNat B) := by
  have hrev : (p ++ '_' :: A ++ '_' :: B).reverse =
      B.reverse ++ '_' :: (A.reverse ++ '_' :: p.reverse) := by
    simp [List.reverse_append]
  have hBr : B.reverse ≠ [] := by simpa using hB
  have hAr : A.reverse ≠ [] := by simpa using hA
  have hBrd : B.reverse.all Char.isDigit = true := by
    rw [List.all_eq_true] at hBd ⊢
    intro x hx
    exact hBd x (List.mem_reverse.mp hx)
  have hArd : A.reverse.all Char.isDigit = true := by
    rw [List.all_eq_true] at hAd ⊢
    intro x hx
    exact hAd x (List.mem_reverse.mp hx)
  unfold matchLastTwo
  rw [hrev, revTail_spec_pos B.reverse _ hBr hBrd]
  simp only
  rw [revTail_spec_pos A.reverse _ hAr hArd]
  simp only [List.reverse_reverse]

theorem matchLastTwo_some_shape (l : List Char) (x y : ℕ)
    (h : matchLastTwo l = some (x, y)) :
    ∃ p A B : List Char, l = p ++ '_' :: A ++ '_' :: B ∧
      A ≠ [] ∧ A.all Char.isDigit = true ∧ B ≠ [] ∧ B.all Char.isDigit = true ∧
      x = digitsToNat A ∧ y = digitsToNat B := by
  unfold matchLastTwo at h
  cases h1 : revTail l.reverse with
  | none =>
      rw [h1] at h
      exact absurd h (by simp)
  | some pr =>
      obtain ⟨bRev, rest1⟩ := pr
      rw [h1] at h
      simp only at h
      cases h2 : revTail rest1 with
      | none =>
          rw [h2] at h
          exact absurd h (by simp)
      | some pr2 =>
          obtain ⟨aRev, rest3⟩ := pr2
          rw [h2] at h
          simp only [Option.some.injEq, Prod.mk.injEq] at h
          obtain ⟨hB1, hB2, hBrev⟩ := revTail_some _ _ _ h1
          obtain ⟨hA1, hA2, hArev⟩ := revTail_some _ _ _ h2
          refine ⟨rest3.reverse, aRev.reverse, bRev.reverse, ?_, ?_, ?_, ?_, ?_, ?_, ?_⟩
          · have hl : l = l.reverse.reverse := (List.reverse_reverse l).symm
            rw [hl, hBrev, hArev]
            simp [List.reverse_append]
          · simpa using hA1
          · rw [List.all_eq_true] at hA2 ⊢
            intro ch hch
            exact hA2 ch (List.mem_reverse.mp hch)
          · simpa using hB1
          · rw [List.all_eq_true] at hB2 ⊢
            intro ch hch
            exact hB2 ch (List.mem_reverse.mp hch)
          · rw [← h.1]
          · rw [← h.2]

/-! ### Python numeric literal parsing (`int(...)`, `float(...)`) -/

/-- Python `str.split()` with no separator: split on whitespace runs,
discarding empty fields.  Worker with an accumulator for the current field
(kept reversed). -/
def pySplitWsGo : List Char → List Char → List (List Char)
  | [], acc => if acc.isEmpty then [] else [acc.reverse]
  | c :: cs, acc =>
      if pyIsSpace c then
        if acc.isEmpty then pySplitWsGo cs [] else acc.reverse :: pySplitWsGo cs []
      else pySplitWsGo cs (c :: acc)

/-- Python `str.split()` on a `String`. -/
def pySplitWs (s : String) : List String :=
  (pySplitWsGo s.data []).map fun l => ⟨l⟩

/-- Python `int(s)` on a decimal string: optional surrounding whitespace,
optional sign, one or more digits; `none` models a raised `ValueError`. -/
def parsePyInt (s : String) : Option ℤ :=
  let l := pyStripChars s.data
  match l with
  | '+' :: ds =>
      if !ds.isEmpty && ds.all Char.isDigit then some (digitsToNat ds : ℤ) else none
  | '-' :: ds =>
      if !ds.isEmpty && ds.all Char.isDigit then some (-(digitsToNat ds : ℤ)) else none
  | ds =>
      if !ds.isEmpty && ds.all Char.isDigit then some (digitsToNat ds : ℤ) else none

/-- A parsed Python float literal: sign, mantissa digits (as one integer),
number of digits after the decimal point, and explicit exponent. -/
structure FloatLit where
  neg : Bool
  mant : ℕ
  fracLen : ℕ
  exp : ℤ
deriving DecidableEq, Repr

/-- Exponent tail of a float literal: empty, or `e`/`E`, an optional sign and
one or more digits consuming the rest of the string. -/
def parseExpTail (l : List Char) : Option ℤ :=
  match l with
  | [] => some 0
  | e :: r =>
      if e = 'e' ∨ e = 'E' then
        let sgn :=
          match r with
          | '+' :: r1 => (false, r1)
          | '-' :: r1 => (true, r1)
          | r1 => (false, r1)
        let ds := sgn.2.takeWhile Char.isDigit
        if !ds.isEmpty && (sgn.2.drop ds.length).isEmpty then
          some (if sgn.1 then -(digitsToNat ds : ℤ) else (digitsToNat ds : ℤ))
        else none
      else none

/-- Python `float(s)` on a finite decimal/scientific literal, split into its
syntactic parts: optional surrounding whitespace, optional sign,
`digits [ . digits ]` or `. digits`, optional exponent tail. -/
def parseFloatRaw (l0 : List Char) : Option FloatLit :=
  let l1 := pyStripChars l0
  let sgn :=
    match l1 with
    | '+' :: r => (false, r)
    | '-' :: r => (true, r)
    | r => (false, r)
  let ip := sgn.2.takeWhile Char.isDigit
  let l2 := sgn.2.drop ip.length
  match l2 with
  | '.' :: r =>
      let fp := r.takeWhile Char.isDigit
      let l3 := r.drop fp.length
      if ip.isEmpty && fp.isEmpty then none
      else (parseExpTail l3).map fun ex => ⟨sgn.1, digitsToNat (ip ++ fp), fp.length, ex⟩
  | _ =>
      if ip.isEmpty then none
      else (parseExpTail l2).map fun ex => ⟨sgn.1, digitsToNat ip, 0, ex⟩

/-- Exact rational value of a parsed float literal (floats are modelled as
exact rationals). -/
def FloatLit.toRat (f : FloatLit) : ℚ :=
  (if f.neg then -1 else 1) * (f.mant : ℚ) * (10 : ℚ) ^ (f.exp - (f.fracLen : ℤ))

/-- Python `float(s)`; `none` models a raised `ValueError`. -/
def parsePyFloat (s : String) : Option ℚ :=
  (parseFloatRaw s.data).map FloatLit.toRat

/-! ### vis_yolo_annotation.py -/

/-- A box returned by `load_yolo_annotations`:
`(class_id, x_min, y_min, box_width, box_height)` in pixel coordinates. -/
abbrev YoloBox := ℤ × ℚ × ℚ × ℚ × ℚ

/-- Embedding of the normalized-to-pixel conversion of one label line
(vis_yolo_annotation.py lines 34-46). -/
def yoloPixelBox (cls : ℤ) (xc yc w h imgW imgH : ℚ) : YoloBox :=
  let xCenter := xc * imgW
  let yCenter := yc * imgH
  let boxW := w * imgW
  let boxH := h * imgH
  (cls, xCenter - boxW / 2, yCenter - boxH / 2, boxW, boxH)

/-- One iteration of the line loop of `load_yolo_annotations`
(vis_yolo_annotation.py lines 23-46) on an accumulator of
(boxes so far, printed warnings so far).  `Except.error` models a Python
exception escaping the loop (a 5-field line whose fields fail `int`/`float`
conversion). -/
def yoloParseFive (p0 p1 p2 p3 p4 : String) : Option (ℤ × ℚ × ℚ × ℚ × ℚ) :=
  match parsePyInt p0, parsePyFloat p1, parsePyFloat p2, parsePyFloat p3,
      parsePyFloat p4 with
  | some cls, some xc, some yc, some w, some h => some (cls, xc, yc, w, h)
  | _, _, _, _, _ => none

def yoloLineStep (imgW imgH : ℚ) (acc : List YoloBox × List String)
    (line0 : String) : Except String (List YoloBox × List String) :=
  let line := pyStrip line0
  if line = "" then .ok acc
  else
    match pySplitWs line with
    | [p0, p1, p2, p3, p4] =>
        match yoloParseFive p0 p1 p2 p3 p4 with
        | some (cls, xc, yc, w, h) =>
            .ok (acc.1 ++ [yoloPixelBox cls xc yc w h imgW imgH], acc.2)
        | none => .error ("could not convert line: " ++ line)
    | _ => .ok (acc.1, acc.2 ++ ["Skipping invalid line: " ++ line])

/-- The line loop of `load_yolo_annotations`. -/
def yoloLinesGo (imgW imgH : ℚ) :
    List String → List YoloBox × List String →
      Except String (List YoloBox × List String)
  | [], acc => .ok acc
  | ln :: rest, acc =>
      match yoloLineStep imgW imgH acc ln with
      | .error e => .error e
      | .ok acc' => yoloLinesGo imgW imgH rest acc'

/-- Embedding of `load_yolo_annotations(label_path, img_width, img_height)`
(vis_yolo_annotation.py lines 11-48).  The filesystem is abstracted:
`labelExists` is `os.path.exists(label_path)` and `contents` is the label
file split into lines.  Returns the boxes together with the printed warnings,
or an exception message. -/
def load_yolo_annotations (labelExists : Bool) (labelPath : String)
    (contents : List String) (imgW imgH : ℚ) :
    Except String (List YoloBox × List String) :=
  if labelExists then yoloLinesGo imgW imgH contents ([], [])
  else .ok ([], ["Label file not found: " ++ labelPath])

/-- Embedding of the `__main__` loop of vis_yolo_annotation.py
(lines 93-103): visualize each directory entry in listing order, increment a
counter after each one, and break out of the loop once the counter reaches
200.  Returns the entries visualized, in order. -/
def visLoop : ℕ → List String → List String
  | _, [] => []
  | count, f :: rest =>
      f :: (if count + 1 = 200 then [] else visLoop (count + 1) rest)

/-- The `__main__` loop started with `count = 0`. -/
def visMain (files : List String) : List String :=
  visLoop 0 files

theorem visLoop_take : ∀ (files : List String) (c : ℕ), c < 200 →
    visLoop c files = files.take (200 - c) := by
  intro files
  induction files with
  | nil => intro c _; simp [visLoop]
  | cons f rest ih =>
      intro c hc
      unfold visLoop
      by_cases h : c + 1 = 200
      · have : 200 - c = 1 := by omega
        rw [if_pos h, this]
        rfl
      · have hlt : c + 1 < 200 := by omega
        have h2 : 200 - c = (200 - (c + 1)) + 1 := by omega
        rw [if_neg h, ih (c + 1) hlt, h2]
        rfl

/-- C10: the annotation visualizer's main loop visualizes exactly the first
200 entries of the images directory listing (each entry is visualized, the
counter is incremented, and the loop breaks when it reaches 200), so at most
200 entries are processed and entries after the 200th in listing order are
never visualized. -/
theorem C10_vis_main_cap :
    ∀ files : List String,
      visMain files = files.take 200 ∧ (visMain files).length ≤ 200 := by
  intro files
  have h := visLoop_take files 0 (by omega)
  rw [visMain, h]
  refine ⟨rfl, ?_⟩
  simp

/-- Concrete evaluation of `load_yolo_annotations` on the spec's example line
`0 0.5 0.5 0.2 0.1` with image size 1000×800: the code produces
`y_min = 0.5*800 - (0.1*800)/2 = 360`. -/
theorem load_yolo_example_eval :
    load_yolo_annotations true "labels/tile.txt" ["0 0.5 0.5 0.2 0.1"] 1000 800 =
      .ok ([((0 : ℤ), (400 : ℚ), (360 : ℚ), (200 : ℚ), (80 : ℚ))], []) := by
  have h1 : pyStrip "0 0.5 0.5 0.2 0.1" = "0 0.5 0.5 0.2 0.1" := by decide
  have hne : ("0 0.5 0.5 0.2 0.1" : String) = "" ↔ False := by
    constructor
    · intro h
      exact absurd h (by decide)
    · intro h
      exact h.elim
  have hsplit : pySplitWs "0 0.5 0.5 0.2 0.1" = ["0", "0.5", "0.5", "0.2", "0.1"] := by
    decide
  have hint : parsePyInt "0" = some 0 := by decide
  have hraw05 : parseFloatRaw "0.5".data = some ⟨false, 5, 1, 0⟩ := by decide
  have hraw02 : parseFloatRaw "0.2".data = some ⟨false, 2, 1, 0⟩ := by decide
  have hraw01 : parseFloatRaw "0.1".data = some ⟨false, 1, 1, 0⟩ := by decide
  have hf05 : parsePyFloat "0.5" = some (1 / 2 : ℚ) := by
    rw [parsePyFloat, hraw05, Option.map_some']
    norm_num [FloatLit.toRat]
  have hf02 : parsePyFloat "0.2" = some (1 / 5 : ℚ) := by
    rw [parsePyFloat, hraw02, Option.map_some']
    norm_num [FloatLit.toRat]
  have hf01 : parsePyFloat "0.1" = some (1 / 10 : ℚ) := by
    rw [parsePyFloat, hraw01, Option.map_some']
    norm_num [FloatLit.toRat]
  have hfive : yoloParseFive "0" "0.5" "0.5" "0.2" "0.1" =
      some ((0 : ℤ), (1 / 2 : ℚ), (1 / 2 : ℚ), (1 / 5 : ℚ), (1 / 10 : ℚ)) := by
    rw [yoloParseFive, hint, hf05, hf02, hf01]
  simp only [load_yolo_annotations, if_true, yoloLinesGo, yoloLineStep, h1,
    hne, if_false, hsplit, hfive]
  norm_num [yoloPixelBox]

/-- C3 counterexample: on the spec's example (`0 0.5 0.5 0.2 0.1`, image
1000×800) the code does not return `y_min = 380`: it returns
`y_min = yc*H - h*H/2 = 400 - 40 = 360`. -/
theorem C3_load_yolo_annotations_counterexample :
    ¬ (load_yolo_annotations true "labels/tile.txt" ["0 0.5 0.5 0.2 0.1"] 1000 800 =
        .ok ([((0 : ℤ), (400 : ℚ), (380 : ℚ), (200 : ℚ), (80 : ℚ))], [])) := by
  intro h
  rw [load_yolo_example_eval] at h
  norm_num at h

/-- C3 (amended): a label line `0 0.5 0.5 0.2 0.1` on a 1000×800 image yields
the pixel-space box `x_min = 400`, `y_min = 360`, `width = 200`,
`height = 80`, and in general the box is computed as
`x_min = xc*W - w*W/2`, `y_min = yc*H - h*H/2`, `width = w*W`,
`height = h*H`. -/
theorem C3_load_yolo_annotations_box :
    (∀ (cls : ℤ) (xc yc w h imgW imgH : ℚ),
      yoloPixelBox cls xc yc w h imgW imgH =
        (cls, xc * imgW - w * imgW / 2, yc * imgH - h * imgH / 2,
          w * imgW, h * imgH)) ∧
    load_yolo_annotations true "labels/tile.txt" ["0 0.5 0.5 0.2 0.1"] 1000 800 =
      .ok ([((0 : ℤ), (400 : ℚ), (360 : ℚ), (200 : ℚ), (80 : ℚ))], []) := by
  exact ⟨fun cls xc yc w h imgW imgH => rfl, load_yolo_example_eval⟩

theorem yoloLineStep_not5 (imgW imgH : ℚ) (acc : List YoloBox × List String)
    (line : String) (h0 : pyStrip line ≠ "")
    (h5 : (pySplitWs (pyStrip line)).length ≠ 5) :
    yoloLineStep imgW imgH acc line =
      .ok (acc.1, acc.2 ++ ["Skipping invalid line: " ++ pyStrip line]) := by
  unfold yoloLineStep
  rcases hs : pySplitWs (pyStrip line) with _ | ⟨p0, _ | ⟨p1, _ | ⟨p2, _ | ⟨p3, _ | ⟨p4, _ | ⟨p5, tl⟩⟩⟩⟩⟩⟩
  all_goals first
  | (rw [hs] at h5; exact absurd rfl h5)
  | simp [h0, hs]

theorem yoloLinesGo_append (imgW imgH : ℚ) (xs ys : List String)
    (acc : List YoloBox × List String) :
    yoloLinesGo imgW imgH (xs ++ ys) acc =
      (yoloLinesGo imgW imgH xs acc).bind (yoloLinesGo imgW imgH ys) := by
  induction xs generalizing acc with
  | nil => simp [yoloLinesGo, Except.bind]
  | cons ln rest ih =>
      rw [List.cons_append]
      unfold yoloLinesGo
      cases yoloLineStep imgW imgH acc ln with
      | error e => simp [Except.bind]
      | ok acc' => simp only [ih acc']

theorem yoloLinesGo_fst_indep (imgW imgH : ℚ) :
    ∀ (ls : List String) (a : List YoloBox) (ws ws' : List String),
      (yoloLinesGo imgW imgH ls (a, ws)).map Prod.fst =
        (yoloLinesGo imgW imgH ls (a, ws')).map Prod.fst := by
  intro ls
  induction ls with
  | nil => intro a ws ws'; rfl
  | cons ln rest ih =>
      intro a ws ws'
      by_cases h0 : pyStrip ln = ""
      · have hstep : ∀ w : List String,
            yoloLineStep imgW imgH (a, w) ln = .ok (a, w) := by
          intro w
          unfold yoloLineStep
          simp [h0]
        rw [yoloLinesGo, yoloLinesGo, hstep ws, hstep ws']
        exact ih a ws ws'
      · rcases hs : pySplitWs (pyStrip ln) with _ | ⟨p0, _ | ⟨p1, _ | ⟨p2, _ | ⟨p3, _ | ⟨p4, _ | ⟨p5, tl⟩⟩⟩⟩⟩⟩
        all_goals first
        | (have h5 : (pySplitWs (pyStrip ln)).length ≠ 5 := by rw [hs]; simp
           rw [yoloLinesGo, yoloLinesGo,
             yoloLineStep_not5 imgW imgH (a, ws) ln h0 h5,
             yoloLineStep_not5 imgW imgH (a, ws') ln h0 h5]
           exact ih a _ _)
        | (cases hp : yoloParseFive p0 p1 p2 p3 p4 with
           | none =>
               have hstep : ∀ w : List String,
                   yoloLineStep imgW imgH (a, w) ln =
                     .error ("could not convert line: " ++ pyStrip ln) := by
                 intro w
                 unfold yoloLineStep
                 simp [h0, hs, hp]
               rw [yoloLinesGo, yoloLinesGo, hstep ws, hstep ws']
           | some v =>
               obtain ⟨cls, xc, yc, w, h⟩ := v
               have hstep : ∀ w' : List String,
                   yoloLineStep imgW imgH (a, w') ln =
                     .ok (a ++ [yoloPixelBox cls xc yc w h imgW imgH], w') := by
                 intro w'
                 unfold yoloLineStep
                 simp [h0, hs, hp]
               rw [yoloLinesGo, yoloLinesGo, hstep ws, hstep ws']
               exact ih _ ws ws')

/-- C9: `load_yolo_annotations` never raises on a label line whose field count
is not 5: the line is skipped with a printed warning and contributes no box; a
missing label file yields the empty box list with a printed warning; and
removing such a malformed line from a file leaves the returned boxes
unchanged (every well-formed 5-field line elsewhere still yields its box). -/
theorem C9_load_yolo_malformed :
    (∀ (labelPath : String) (contents : List String) (imgW imgH : ℚ),
        load_yolo_annotations false labelPath contents imgW imgH =
          .ok ([], ["Label file not found: " ++ labelPath])) ∧
    (∀ (imgW imgH : ℚ) (acc : List YoloBox × List String) (line : String),
        pyStrip line ≠ "" → (pySplitWs (pyStrip line)).length ≠ 5 →
        yoloLineStep imgW imgH acc line =
          .ok (acc.1, acc.2 ++ ["Skipping invalid line: " ++ pyStrip line])) ∧
    (∀ (imgW imgH : ℚ) (labelPath : String) (pre post : List String)
        (line : String),
        pyStrip line ≠ "" → (pySplitWs (pyStrip line)).length ≠ 5 →
        (load_yolo_annotations true labelPath (pre ++ line :: post) imgW imgH).map
            Prod.fst =
          (load_yolo_annotations true labelPath (pre ++ post) imgW imgH).map
            Prod.fst) := by
  refine ⟨?_, ?_, ?_⟩
  · intro labelPath contents imgW imgH
    rfl
  · intro imgW imgH acc line h0 h5
    exact yoloLineStep_not5 imgW imgH acc line h0 h5
  · intro imgW imgH labelPath pre post line h0 h5
    simp only [load_yolo_annotations, if_true]
    have key : ∀ (pre' : List String) (acc : List YoloBox × List String),
        (yoloLinesGo imgW imgH (pre' ++ line :: post) acc).map Prod.fst =
          (yoloLinesGo imgW imgH (pre' ++ post) acc).map Prod.fst := by
      intro pre'
      induction pre' with
      | nil =>
          intro acc
          obtain ⟨a, ws⟩ := acc
          rw [List.nil_append, List.nil_append, yoloLinesGo,
            yoloLineStep_not5 imgW imgH (a, ws) line h0 h5]
          exact yoloLinesGo_fst_indep imgW imgH post a _ ws
      | cons p pre'' ih =>
          intro acc
          rw [List.cons_append, List.cons_append, yoloLinesGo, yoloLinesGo]
          cases yoloLineStep imgW imgH acc p with
          | error e => rfl
          | ok acc' => exact ih acc'
    exact key pre ([], [])

/-- C9 witness: a missing label file, a 4-field line on its own, and a file
where the 4-field line sits next to a well-formed line, all evaluated through
`C9_load_yolo_malformed`. -/
theorem C9_load_yolo_malformed_witness :
    load_yolo_annotations false "labels/missing.txt" [] 1000 800 =
      .ok ([], ["Label file not found: " ++ "labels/missing.txt"]) ∧
    yoloLineStep 1000 800 ([], []) "1 2 3 4" =
      .ok ((([], []) : List YoloBox × List String).1,
        (([], []) : List YoloBox × List String).2 ++
          ["Skipping invalid line: " ++ pyStrip "1 2 3 4"]) ∧
    (load_yolo_annotations true "labels/a.txt"
        (["0 0.5 0.5 0.2 0.1"] ++ "1 2 3 4" :: []) 1000 800).map Prod.fst =
      (load_yolo_annotations true "labels/a.txt"
        (["0 0.5 0.5 0.2 0.1"] ++ []) 1000 800).map Prod.fst := by
  refine ⟨C9_load_yolo_malformed.1 "labels/missing.txt" [] 1000 800, ?_, ?_⟩
  · exact C9_load_yolo_malformed.2.1 1000 800 ([], []) "1 2 3 4"
      (by decide) (by decide)
  · exact C9_load_yolo_malformed.2.2 1000 800 "labels/a.txt"
      ["0 0.5 0.5 0.2 0.1"] [] "1 2 3 4" (by decide) (by decide)

/-! ### XML trees (`xml.etree.ElementTree`) -/

/-- An `xml.etree.ElementTree` element: tag, optional text, child elements
(attributes and tails are irrelevant to the script and omitted). -/
inductive XML where
  | elem (tag : String) (text : Option String) (children : List XML)

def XML.tag : XML → String
  | .elem t _ _ => t

def XML.text : XML → Option String
  | .elem _ x _ => x

def XML.children : XML → List XML
  | .elem _ _ cs => cs

/-- `root.find(tag)`: the first direct child with the given tag. -/
def findChild (tag : String) : List XML → Option XML
  | [] => none
  | c :: cs => if c.tag = tag then some c else findChild tag cs

/-- Set the text of the first direct child with the given tag; `none` when no
child has that tag. -/
def setTextFirst (tag s : String) : List XML → Option (List XML)
  | [] => none
  | c :: cs =>
      if c.tag = tag then some (XML.elem c.tag (some s) c.children :: cs)
      else (setTextFirst tag s cs).map (c :: ·)

/-- `list(root).index(el)` for the first child of the given tag (the element
found by `root.find`). -/
def idxOfTag (tag : String) : List XML → Option ℕ
  | [] => none
  | c :: cs => if c.tag = tag then some 0 else (idxOfTag tag cs).map (· + 1)

/-- `root.insert(n, el)`. -/
def insertAtIdx (n : ℕ) (x : XML) (l : List XML) : List XML :=
  l.take n ++ x :: l.drop n

/-- The element-locating part of `update_geotransform_in_auxxml`
(create_projection_files.py lines 115-129), with the formatted transform
string as an argument: set the text of the first direct `GeoTransform` child;
if absent, create one (text set afterwards) inserted right after the first
`SRS` child, or at index 0 when there is no `SRS` child. -/
def updateGTText (root : XML) (s : String) : XML :=
  match setTextFirst "GeoTransform" s root.children with
  | some cs => XML.elem root.tag root.text cs
  | none =>
      let newEl := XML.elem "GeoTransform" (some s) []
      match idxOfTag "SRS" root.children with
      | some i => XML.elem root.tag root.text (insertAtIdx (i + 1) newEl root.children)
      | none => XML.elem root.tag root.text (insertAtIdx 0 newEl root.children)

mutual

/-- The per-tile deep clone
`ET.ElementTree(ET.fromstring(ET.tostring(aux_tree_template.getroot())))`
(create_projection_files.py line 243): serialising and re-parsing copies the
tree structurally. -/
def deepClone : XML → XML
  | .elem t x cs => .elem t x (deepCloneList cs)

def deepCloneList : List XML → List XML
  | [] => []
  | c :: cs => deepClone c :: deepCloneList cs

end

mutual

theorem deepClone_eq : ∀ x : XML, deepClone x = x
  | .elem t x cs => by rw [deepClone, deepCloneList_eq cs]

theorem deepCloneList_eq : ∀ l : List XML, deepCloneList l = l
  | [] => rfl
  | c :: cs => by rw [deepCloneList, deepClone_eq c, deepCloneList_eq cs]

end

theorem XML.tag_elem (t : String) (x : Option String) (cs : List XML) :
    (XML.elem t x cs).tag = t := rfl

theorem XML.text_elem (t : String) (x : Option String) (cs : List XML) :
    (XML.elem t x cs).text = x := rfl

theorem XML.children_elem (t : String) (x : Option String) (cs : List XML) :
    (XML.elem t x cs).children = cs := rfl

theorem findChild_cons (t : String) (c : XML) (cs : List XML) :
    findChild t (c :: cs) = if c.tag = t then some c else findChild t cs := by
  obtain ⟨ct, cx, ccs⟩ := c
  rfl

theorem setTextFirst_cons (t s : String) (c : XML) (cs : List XML) :
    setTextFirst t s (c :: cs) =
      if c.tag = t then some (XML.elem c.tag (some s) c.children :: cs)
      else (setTextFirst t s cs).map (c :: ·) := by
  obtain ⟨ct, cx, ccs⟩ := c
  rfl

theorem findChild_none_iff (t : String) :
    ∀ l : List XML, findChild t l = none ↔ ∀ c ∈ l, c.tag ≠ t := by
  intro l
  induction l with
  | nil => simp [findChild]
  | cons c cs ih =>
      rw [findChild_cons]
      by_cases h : c.tag = t
      · simp [h]
      · simp [h, ih]

theorem setTextFirst_none_iff (t s : String) :
    ∀ l : List XML, setTextFirst t s l = none ↔ findChild t l = none := by
  intro l
  induction l with
  | nil => simp [setTextFirst, findChild]
  | cons c cs ih =>
      rw [setTextFirst_cons, findChild_cons]
      by_cases h : c.tag = t
      · simp [h]
      · simp [h, ih]

theorem findChild_append_left_none (t : String) (l1 l2 : List XML)
    (h : ∀ c ∈ l1, c.tag ≠ t) :
    findChild t (l1 ++ l2) = findChild t l2 := by
  induction l1 with
  | nil => rfl
  | cons c cs ih =>
      rw [List.cons_append, findChild_cons, if_neg (h c (List.mem_cons_self c cs))]
      exact ih fun d hd => h d (List.mem_cons_of_mem c hd)

theorem findChild_setTextFirst (t s : String) :
    ∀ l l' : List XML, setTextFirst t s l = some l' →
      ∃ c : XML, findChild t l = some c ∧
        findChild t l' = some (XML.elem c.tag (some s) c.children) ∧ c.tag = t := by
  intro l
  induction l with
  | nil => intro l' h; exact absurd h (by simp [setTextFirst])
  | cons c cs ih =>
      intro l' h
      rw [setTextFirst_cons] at h
      by_cases hc : c.tag = t
      · rw [if_pos hc] at h
        refine ⟨c, ?_, ?_, hc⟩
        · rw [findChild_cons, if_pos hc]
        · rw [← Option.some.inj h, findChild_cons, XML.tag_elem, if_pos hc]
      · rw [if_neg hc] at h
        cases hrec : setTextFirst t s cs with
        | none => rw [hrec] at h; exact absurd h (by simp)
        | some cs' =>
            rw [hrec] at h
            simp only [Option.map_some'] at h
            obtain ⟨d, hd1, hd2, hd3⟩ := ih cs' hrec
            refine ⟨d, ?_, ?_, hd3⟩
            · rw [findChild_cons, if_neg hc]
              exact hd1
            · rw [← Option.some.inj h, findChild_cons, if_neg hc]
              exact hd2

theorem setTextFirst_append_found (t s : String) (l1 : List XML) (x : XML)
    (l2 : List XML) (h1 : ∀ c ∈ l1, c.tag ≠ t) (hx : x.tag = t) :
    setTextFirst t s (l1 ++ x :: l2) =
      some (l1 ++ XML.elem x.tag (some s) x.children :: l2) := by
  induction l1 with
  | nil =>
      rw [List.nil_append, List.nil_append, setTextFirst_cons, if_pos hx]
  | cons c cs ih =>
      rw [List.cons_append, List.cons_append, setTextFirst_cons,
        if_neg (h1 c (List.mem_cons_self c cs)),
        ih fun d hd => h1 d (List.mem_cons_of_mem c hd)]
      rfl

theorem setTextFirst_setTextFirst (t s s' : String) :
    ∀ l m : List XML, setTextFirst t s' l = some m →
      setTextFirst t s m = setTextFirst t s l := by
  intro l
  induction l with
  | nil => intro m h; exact absurd h (by simp [setTextFirst])
  | cons c cs ih =>
      intro m h
      rw [setTextFirst_cons] at h
      by_cases hc : c.tag = t
      · rw [if_pos hc] at h
        rw [← Option.some.inj h, setTextFirst_cons, setTextFirst_cons,
          XML.tag_elem, XML.children_elem, if_pos hc, if_pos hc]
      · rw [if_neg hc] at h
        cases hrec : setTextFirst t s' cs with
        | none => rw [hrec] at h; exact absurd h (by simp)
        | some cs' =>
            rw [hrec] at h
            simp only [Option.map_some'] at h
            rw [← Option.some.inj h, setTextFirst_cons, setTextFirst_cons,
              if_neg hc, if_neg hc, ih cs' hrec]

/-- Re-updating an already-updated tree only rewrites the `GeoTransform` text:
updating with `s` gives the same tree whether one starts from the original
tree or from the tree already updated with `s'`. -/
theorem updateGTText_updateGTText (root : XML) (s s' : String) :
    updateGTText (updateGTText root s') s = updateGTText root s := by
  obtain ⟨rt, rx, rcs⟩ := root
  cases hset : setTextFirst "GeoTransform" s' rcs with
  | some m =>
      have h1 : updateGTText (XML.elem rt rx rcs) s' = XML.elem rt rx m := by
        unfold updateGTText
        rw [XML.children_elem, hset]
        rfl
      rw [h1]
      have h2 : setTextFirst "GeoTransform" s m = setTextFirst "GeoTransform" s rcs :=
        setTextFirst_setTextFirst "GeoTransform" s s' rcs m hset
      unfold updateGTText
      rw [XML.children_elem, XML.children_elem, h2]
      cases hs2 : setTextFirst "GeoTransform" s rcs with
      | some m2 => rfl
      | none =>
          exfalso
          rw [setTextFirst_none_iff] at hs2
          obtain ⟨c, hc1, _, _⟩ := findChild_setTextFirst "GeoTransform" s' rcs m hset
          rw [hs2] at hc1
          exact Option.noConfusion hc1
  | none =>
      have hnochild : ∀ c ∈ rcs, c.tag ≠ "GeoTransform" := by
        rw [← findChild_none_iff, ← setTextFirst_none_iff "GeoTransform" s']
        exact hset
      have hsetn : ∀ u : String, setTextFirst "GeoTransform" u rcs = none := by
        intro u
        rw [setTextFirst_none_iff, findChild_none_iff]
        exact hnochild
      have h1 : updateGTText (XML.elem rt rx rcs) s' =
          XML.elem rt rx (match idxOfTag "SRS" rcs with
            | some i => insertAtIdx (i + 1) (XML.elem "GeoTransform" (some s') []) rcs
            | none => insertAtIdx 0 (XML.elem "GeoTransform" (some s') []) rcs) := by
        unfold updateGTText
        rw [XML.children_elem, hset]
        cases idxOfTag "SRS" rcs with
        | some i => rfl
        | none => rfl
      cases hidx : idxOfTag "SRS" rcs with
      | some i =>
          rw [hidx] at h1
          rw [h1]
          have htake : ∀ c ∈ rcs.take (i + 1), c.tag ≠ "GeoTransform" :=
            fun c hc => hnochild c (List.mem_of_mem_take hc)
          have hst : setTextFirst "GeoTransform" s
              (insertAtIdx (i + 1) (XML.elem "GeoTransform" (some s') []) rcs) =
              some (insertAtIdx (i + 1) (XML.elem "GeoTransform" (some s) []) rcs) := by
            unfold insertAtIdx
            rw [setTextFirst_append_found "GeoTransform" s (rcs.take (i + 1))
              (XML.elem "GeoTransform" (some s') []) (rcs.drop (i + 1)) htake rfl]
            rfl
          unfold updateGTText
          rw [XML.children_elem, XML.children_elem, hst, hsetn s, hidx]
          rfl
      | none =>
          rw [hidx] at h1
          rw [h1]
          have hst : setTextFirst "GeoTransform" s
              (insertAtIdx 0 (XML.elem "GeoTransform" (some s') []) rcs) =
              some (insertAtIdx 0 (XML.elem "GeoTransform" (some s) []) rcs) := by
            unfold insertAtIdx
            rw [List.take_zero, List.drop_zero, List.nil_append, List.nil_append,
              setTextFirst_cons]
            rfl
          unfold updateGTText
          rw [XML.children_elem, XML.children_elem, hst, hsetn s, hidx]
          rfl

/-! ### Python float formatting `f"{v:.16e}"` (create_projection_files.py
lines 88-90).  The exact rational value is formatted in scientific notation
with 16 digits after the decimal point, correctly rounded with ties to even,
an explicit exponent sign and at least two exponent digits — the format of
CPython's `%.16e` on the modelled exact value.  All arithmetic is done on the
numerator/denominator pair so the definitions are kernel-computable. -/

/-- Round half to even of the fraction `num/den` (`den > 0`). -/
def rheNat (num den : ℕ) : ℕ :=
  if 2 * (num % den) < den then num / den
  else if den < 2 * (num % den) then num / den + 1
  else if num / den % 2 = 0 then num / den
  else num / den + 1

/-- Fuel-bounded decimal exponent search for `n/d ≥ 1`: the largest `e` with
`d * 10^e ≤ n`, valid while `n < d * 10^fuel`. -/
def decExpGo : ℕ → ℕ → ℕ → ℕ
  | 0, _, _ => 0
  | fuel + 1, n, d => if n < 10 * d then 0 else decExpGo fuel n (10 * d) + 1

/-- Fuel-bounded decimal exponent search for `0 < n/d < 1`: the least `k ≥ 1`
with `d ≤ n * 10^k`, valid while `d ≤ n * 10^(fuel+1)`. -/
def decExpNegGo : ℕ → ℕ → ℕ → ℕ
  | 0, _, _ => 1
  | fuel + 1, n, d => if d ≤ 10 * n then 1 else decExpNegGo fuel (10 * n) d + 1

/-- Decimal exponent `⌊log10 (n/d)⌋` for positive `n, d`. -/
def decExp (n d : ℕ) : ℤ :=
  if d ≤ n then (decExpGo n n d : ℤ) else -(decExpNegGo d n d : ℤ)

/-- Rounded 17-digit mantissa and decimal exponent of `n/d > 0`: returns
`(m, e)` with `10^16 ≤ m < 10^17` and `n/d` rounded to `(m / 10^16) * 10^e`. -/
def decMantissa16 (n d : ℕ) : ℕ × ℤ :=
  let e := decExp n d
  let p := (16 : ℤ) - e
  let num := if 0 ≤ p then n * 10 ^ p.toNat else n
  let den := if 0 ≤ p then d else d * 10 ^ (-p).toNat
  let m := rheNat num den
  if m = 10 ^ 17 then (10 ^ 16, e + 1) else (m, e)

/-- The character of a decimal digit. -/
def natDigitChar (n : ℕ) : Char := Char.ofNat (48 + n)

/-- Exactly `k` decimal digits of `n < 10^k`, zero-padded, most significant
first. -/
def padDigits : ℕ → ℕ → List Char
  | 0, _ => []
  | k + 1, n => natDigitChar (n / 10 ^ k) :: padDigits k (n % 10 ^ k)

/-- Fuel-bounded decimal digit list of a natural number, most significant
first. -/
def natToDigitsGo : ℕ → ℕ → List Char
  | 0, _ => []
  | fuel + 1, n =>
      if n < 10 then [natDigitChar n]
      else natToDigitsGo fuel (n / 10) ++ [natDigitChar (n % 10)]

/-- Decimal digit list of a natural number. -/
def natToDigits (n : ℕ) : List Char := natToDigitsGo (n + 1) n

/-- The exponent part after `e`: sign, then the exponent digits zero-padded to
at least two. -/
def expChars (e : ℤ) : List Char :=
  let ds := natToDigits e.natAbs
  (if e < 0 then '-' else '+') :: (if ds.length < 2 then '0' :: ds else ds)

/-- Python `f"{v:.16e}"` on the exact rational `v`. -/
def pyFormatE16 (q : ℚ) : String :=
  if q = 0 then "0.0000000000000000e+00"
  else
    let nd := decMantissa16 q.num.natAbs q.den
    (if q < 0 then "-" else "") ++
      ⟨natDigitChar (nd.1 / 10 ^ 16) :: '.' :: padDigits 16 (nd.1 % 10 ^ 16)⟩ ++
      ⟨'e' :: expChars nd.2⟩

/-- The coefficient tuple as iterated by `", ".join(f"{v:.16e}" for v in gt)`. -/
def gtToList (gt : GT6) : List ℚ :=
  [gt.gt0, gt.gt1, gt.gt2, gt.gt3, gt.gt4, gt.gt5]

/-- Embedding of `format_geotransform(gt)` (create_projection_files.py
lines 88-90): two leading spaces, the six coefficients formatted with
`f"{v:.16e}"`, joined by `", "`. -/
def format_geotransform (gt : GT6) : String :=
  "  " ++ String.intercalate ", " ((gtToList gt).map pyFormatE16)

/-- Embedding of `update_geotransform_in_auxxml(aux_tree, new_gt)`
(create_projection_files.py lines 115-129). -/
def update_geotransform_in_auxxml (root : XML) (newGt : GT6) : XML :=
  updateGTText root (format_geotransform newGt)

/-- Count of mantissa digits of a formatted value: decimal digits appearing
before the exponent marker `e` (the significant digits of the printed
number). -/
def mantissaSigDigits (s : String) : ℕ :=
  ((s.data.takeWhile fun c => c != 'e').filter Char.isDigit).length

/-- Structural check for scientific notation with exactly `frac` digits after
the decimal point: optional minus sign, one digit, a point, `frac` digits, an
`e`, an explicit sign and at least two exponent digits. -/
def isSciString (frac : ℕ) (s : String) : Bool :=
  let l := if s.data.head? = some '-' then s.data.tail else s.data
  match l with
  | d :: dot :: rest2 =>
      d.isDigit && (dot == '.') &&
      ((rest2.take frac).all Char.isDigit) && (decide ((rest2.take frac).length = frac)) &&
      (match rest2.drop frac with
       | e :: sg :: ds =>
           (e == 'e') && (sg == '+' || sg == '-') &&
           decide (2 ≤ ds.length) && ds.all Char.isDigit
       | _ => false)
  | _ => false

theorem decExpGo_spec : ∀ (fuel n d : ℕ), 0 < d → d ≤ n → n < d * 10 ^ fuel →
    d * 10 ^ decExpGo fuel n d ≤ n ∧ n < d * 10 ^ (decExpGo fuel n d + 1) := by
  intro fuel
  induction fuel with
  | zero =>
      intro n d hd hdn hlt
      rw [pow_zero, mul_one] at hlt
      omega
  | succ fuel ih =>
      intro n d hd hdn hlt
      rw [decExpGo]
      by_cases h : n < 10 * d
      · rw [if_pos h]
        rw [pow_zero, mul_one, zero_add, pow_one]
        omega
      · rw [if_neg h]
        push_neg at h
        have h10d : 0 < 10 * d := by omega
        have hlt' : n < 10 * d * 10 ^ fuel := by
          have he : d * 10 ^ (fuel + 1) = 10 * d * 10 ^ fuel := by ring
          omega
        obtain ⟨ih1, ih2⟩ := ih n (10 * d) h10d h hlt'
        have e1 : d * 10 ^ (decExpGo fuel n (10 * d) + 1) =
            10 * d * 10 ^ decExpGo fuel n (10 * d) := by ring
        have e2 : d * 10 ^ (decExpGo fuel n (10 * d) + 1 + 1) =
            10 * d * 10 ^ (decExpGo fuel n (10 * d) + 1) := by ring
        omega

theorem decExpNegGo_spec : ∀ (fuel n d : ℕ), 0 < n → n < d →
    d ≤ n * 10 ^ (fuel + 1) →
    d ≤ n * 10 ^ decExpNegGo fuel n d ∧
      n * 10 ^ (decExpNegGo fuel n d - 1) < d ∧ 1 ≤ decExpNegGo fuel n d := by
  intro fuel
  induction fuel with
  | zero =>
      intro n d hn hnd hle
      rw [decExpNegGo]
      rw [pow_one] at hle
      refine ⟨?_, ?_, le_refl 1⟩
      · rw [pow_one]
        omega
      · simpa using hnd
  | succ fuel ih =>
      intro n d hn hnd hle
      rw [decExpNegGo]
      by_cases h : d ≤ 10 * n
      · rw [if_pos h]
        refine ⟨?_, ?_, le_refl 1⟩
        · rw [pow_one]
          omega
        · simpa using hnd
      · rw [if_neg h]
        push_neg at h
        have h10n : 0 < 10 * n := by omega
        have hle' : d ≤ 10 * n * 10 ^ (fuel + 1) := by
          have he : n * 10 ^ (fuel + 1 + 1) = 10 * n * 10 ^ (fuel + 1) := by ring
          omega
        obtain ⟨ih1, ih2, ih3⟩ := ih (10 * n) d h10n h hle'
        set K := decExpNegGo fuel (10 * n) d with hK
        refine ⟨?_, ?_, by omega⟩
        · have he : n * 10 ^ (K + 1) = 10 * n * 10 ^ K := by ring
          omega
        · have hK1 : K + 1 - 1 = (K - 1) + 1 := by omega
          have he : n * 10 ^ ((K - 1) + 1) = 10 * n * 10 ^ (K - 1) := by ring
          rw [hK1]
          omega

theorem rheNat_mem (num den : ℕ) :
    rheNat num den = num / den ∨ rheNat num den = num / den + 1 := by
  unfold rheNat
  split_ifs <;> simp

theorem decMantissa16_bounds (n d : ℕ) (hn : 0 < n) (hd : 0 < d) :
    10 ^ 16 ≤ (decMantissa16 n d).1 ∧ (decMantissa16 n d).1 < 10 ^ 17 := by
  have hbounds :
      0 < (if 0 ≤ (16 : ℤ) - decExp n d then d
           else d * 10 ^ (-((16 : ℤ) - decExp n d)).toNat) ∧
      10 ^ 16 * (if 0 ≤ (16 : ℤ) - decExp n d then d
           else d * 10 ^ (-((16 : ℤ) - decExp n d)).toNat) ≤
        (if 0 ≤ (16 : ℤ) - decExp n d then n * 10 ^ ((16 : ℤ) - decExp n d).toNat
           else n) ∧
      (if 0 ≤ (16 : ℤ) - decExp n d then n * 10 ^ ((16 : ℤ) - decExp n d).toNat
           else n) <
        10 ^ 17 * (if 0 ≤ (16 : ℤ) - decExp n d then d
           else d * 10 ^ (-((16 : ℤ) - decExp n d)).toNat) := by
    unfold decExp
    by_cases hdn : d ≤ n
    · rw [if_pos hdn]
      have hnfuel : n < d * 10 ^ n := by
        have h1 : n < 10 ^ n := Nat.lt_pow_self (by norm_num) n
        have h2 : 10 ^ n ≤ d * 10 ^ n := Nat.le_mul_of_pos_left _ hd
        omega
      obtain ⟨hs1, hs2⟩ := decExpGo_spec n n d hd hdn hnfuel
      set E := decExpGo n n d with hE
      by_cases hE16 : E ≤ 16
      · have hp : (0 : ℤ) ≤ 16 - (E : ℤ) := by omega
        have hpt : ((16 : ℤ) - (E : ℤ)).toNat = 16 - E := by omega
        repeat rw [if_pos hp]
        rw [hpt]
        refine ⟨hd, ?_, ?_⟩
        · have hmul := Nat.mul_le_mul_right (10 ^ (16 - E)) hs1
          have heq : d * 10 ^ E * 10 ^ (16 - E) = 10 ^ 16 * d := by
            rw [mul_assoc, ← pow_add]
            have h16 : E + (16 - E) = 16 := by omega
            rw [h16]
            ring
          omega
        · have hmul := (Nat.mul_lt_mul_right (a := 10 ^ (16 - E)) (by positivity)).mpr hs2
          have heq : d * 10 ^ (E + 1) * 10 ^ (16 - E) = 10 ^ 17 * d := by
            rw [mul_assoc, ← pow_add]
            have h17 : E + 1 + (16 - E) = 17 := by omega
            rw [h17]
            ring
          omega
      · have hp : ¬ (0 : ℤ) ≤ 16 - (E : ℤ) := by omega
        have hpt : (-((16 : ℤ) - (E : ℤ))).toNat = E - 16 := by omega
        repeat rw [if_neg hp]
        rw [hpt]
        refine ⟨by positivity, ?_, ?_⟩
        · have heq : 10 ^ 16 * (d * 10 ^ (E - 16)) = d * 10 ^ E := by
            rw [← mul_assoc, mul_comm (10 ^ 16 : ℕ) d, mul_assoc, ← pow_add]
            have h16 : 16 + (E - 16) = E := by omega
            rw [h16]
          omega
        · have heq : 10 ^ 17 * (d * 10 ^ (E - 16)) = d * 10 ^ (E + 1) := by
            rw [← mul_assoc, mul_comm (10 ^ 17 : ℕ) d, mul_assoc, ← pow_add]
            have h17 : 17 + (E - 16) = E + 1 := by omega
            rw [h17]
          omega
    · rw [if_neg hdn]
      push_neg at hdn
      have hdfuel : d ≤ n * 10 ^ (d + 1) := by
        have h1 : d < 10 ^ d := Nat.lt_pow_self (by norm_num) d
        have h2 : (10 : ℕ) ^ d ≤ 10 ^ (d + 1) := Nat.pow_le_pow_right (by norm_num) (by omega)
        have h3 : (10 : ℕ) ^ (d + 1) ≤ n * 10 ^ (d + 1) := Nat.le_mul_of_pos_left _ hn
        omega
      obtain ⟨hs1, hs2, hs3⟩ := decExpNegGo_spec d n d hn hdn hdfuel
      set K := decExpNegGo d n d with hK
      have hp : (0 : ℤ) ≤ 16 - -(K : ℤ) := by omega
      have hpt : ((16 : ℤ) - -(K : ℤ)).toNat = 16 + K := by omega
      repeat rw [if_pos hp]
      rw [hpt]
      refine ⟨hd, ?_, ?_⟩
      · have hmul := Nat.mul_le_mul_left (10 ^ 16) hs1
        have heq : 10 ^ 16 * (n * 10 ^ K) = n * 10 ^ (16 + K) := by
          rw [← mul_assoc, mul_comm (10 ^ 16 : ℕ) n, mul_assoc, ← pow_add]
        omega
      · have hmul := (Nat.mul_lt_mul_right (a := 10 ^ 17) (by positivity)).mpr hs2
        have heq : n * 10 ^ (K - 1) * 10 ^ 17 = n * 10 ^ (16 + K) := by
          rw [mul_assoc, ← pow_add]
          have h17 : K - 1 + 17 = 16 + K := by omega
          rw [h17]
        have heq2 : d * 10 ^ 17 = 10 ^ 17 * d := by ring
        omega
  simp only [decMantissa16]
  obtain ⟨hden0, hlow, hhigh⟩ := hbounds
  set num := (if 0 ≤ (16 : ℤ) - decExp n d then n * 10 ^ ((16 : ℤ) - decExp n d).toNat
      else n) with hnum
  set den := (if 0 ≤ (16 : ℤ) - decExp n d then d
      else d * 10 ^ (-((16 : ℤ) - decExp n d)).toNat) with hden
  have hf1 : 10 ^ 16 ≤ num / den := by
    rw [Nat.le_div_iff_mul_le hden0]
    omega
  have hf2 : num / den < 10 ^ 17 := by
    rw [Nat.div_lt_iff_lt_mul hden0]
    omega
  have hm := rheNat_mem num den
  by_cases hcarry : rheNat num den = 10 ^ 17
  · rw [if_pos hcarry]
    norm_num
  · rw [if_neg hcarry]
    constructor
    · omega
    · omega

theorem padDigits_length : ∀ (k n : ℕ), (padDigits k n).length = k := by
  intro k
  induction k with
  | zero => intro n; rfl
  | succ k ih => intro n; simp [padDigits, ih]

theorem natDigitChar_isDigit (n : ℕ) (h : n < 10) :
    (natDigitChar n).isDigit = true := by
  interval_cases n <;> decide

theorem natDigitChar_ne_hyphen (n : ℕ) (h : n < 10) :
    natDigitChar n ≠ '-' := by
  interval_cases n <;> decide

theorem padDigits_all_digit : ∀ (k n : ℕ), n < 10 ^ k →
    (padDigits k n).all Char.isDigit = true := by
  intro k
  induction k with
  | zero => intro n _; rfl
  | succ k ih =>
      intro n hn
      rw [padDigits, List.all_cons, Bool.and_eq_true]
      constructor
      · apply natDigitChar_isDigit
        rw [Nat.div_lt_iff_lt_mul (by positivity)]
        have he : 10 * 10 ^ k = 10 ^ (k + 1) := by ring
        omega
      · exact ih _ (Nat.mod_lt _ (by positivity))

theorem natToDigitsGo_all_digit : ∀ (fuel n : ℕ),
    (natToDigitsGo fuel n).all Char.isDigit = true := by
  intro fuel
  induction fuel with
  | zero => intro n; rfl
  | succ fuel ih =>
      intro n
      rw [natToDigitsGo]
      by_cases h : n < 10
      · rw [if_pos h]
        simp [natDigitChar_isDigit n h]
      · rw [if_neg h]
        rw [List.all_append]
        simp [ih, natDigitChar_isDigit (n % 10) (Nat.mod_lt _ (by omega))]

theorem natToDigitsGo_ne_nil : ∀ (fuel n : ℕ), 0 < fuel →
    natToDigitsGo fuel n ≠ [] := by
  intro fuel n h
  cases fuel with
  | zero => omega
  | succ fuel =>
      rw [natToDigitsGo]
      by_cases hn : n < 10
      · rw [if_pos hn]
        simp
      · rw [if_neg hn]
        simp

theorem expChars_shape (e : ℤ) :
    ∃ sg ds, expChars e = sg :: ds ∧ (sg = '+' ∨ sg = '-') ∧ 2 ≤ ds.length ∧
      ds.all Char.isDigit = true := by
  unfold expChars
  refine ⟨if e < 0 then '-' else '+',
    if (natToDigits e.natAbs).length < 2 then '0' :: natToDigits e.natAbs
      else natToDigits e.natAbs, rfl, ?_, ?_, ?_⟩
  · by_cases h : e < 0
    · right; rw [if_pos h]
    · left; rw [if_neg h]
  · have hne : natToDigits e.natAbs ≠ [] :=
      natToDigitsGo_ne_nil (e.natAbs + 1) e.natAbs (by omega)
    have hlen : 1 ≤ (natToDigits e.natAbs).length := by
      cases hcase : natToDigits e.natAbs with
      | nil => exact absurd hcase hne
      | cons c cs => simp
    by_cases h : (natToDigits e.natAbs).length < 2
    · rw [if_pos h]
      simp only [List.length_cons]
      omega
    · rw [if_neg h]
      omega
  · have hall : (natToDigits e.natAbs).all Char.isDigit = true :=
      natToDigitsGo_all_digit (e.natAbs + 1) e.natAbs
    by_cases h : (natToDigits e.natAbs).length < 2
    · rw [if_pos h, List.all_cons]
      simp [hall]
    · rw [if_neg h]
      exact hall

theorem isDigit_ne_e {c : Char} (h : c.isDigit = true) : c ≠ 'e' := by
  intro he
  rw [he] at h
  exact absurd h (by decide)

theorem isDigit_bne_e {c : Char} (h : c.isDigit = true) : (c != 'e') = true :=
  bne_iff_ne.mpr (isDigit_ne_e h)

theorem mantissaSigDigits_of_parts (s : String) (pre : List Char) (dCh : Char)
    (P E0 : List Char)
    (hpre : pre = [] ∨ pre = ['-'])
    (hs : s.data = pre ++ dCh :: '.' :: (P ++ 'e' :: E0))
    (hd : dCh.isDigit = true) (hPd : P.all Char.isDigit = true) :
    mantissaSigDigits s = P.length + 1 := by
  unfold mantissaSigDigits
  rw [hs]
  have hassoc : pre ++ dCh :: '.' :: (P ++ 'e' :: E0) =
      (pre ++ dCh :: '.' :: P) ++ 'e' :: E0 := by
    simp [List.append_assoc]
  rw [hassoc]
  have hall : (pre ++ dCh :: '.' :: P).all (fun c => c != 'e') = true := by
    rw [List.all_append, Bool.and_eq_true]
    constructor
    · rcases hpre with h | h <;> rw [h] <;> decide
    · rw [List.all_cons, List.all_cons, Bool.and_eq_true, Bool.and_eq_true]
      refine ⟨isDigit_bne_e hd, by decide, ?_⟩
      rw [List.all_eq_true] at hPd ⊢
      intro c hc
      exact isDigit_bne_e (hPd c hc)
  rw [takeWhile_append_stop _ _ _ hall (by decide)]
  rw [List.filter_append]
  have hpre0 : pre.filter Char.isDigit = [] := by
    rcases hpre with h | h <;> rw [h] <;> decide
  rw [hpre0]
  have hcons : (dCh :: '.' :: P).filter Char.isDigit = dCh :: P.filter Char.isDigit := by
    rw [List.filter_cons_of_pos hd, List.filter_cons_of_neg (by decide)]
  rw [hcons]
  have hPfilter : P.filter Char.isDigit = P := by
    rw [List.filter_eq_self]
    rw [List.all_eq_true] at hPd
    exact hPd
  rw [hPfilter]
  simp

theorem isSciString_of_parts (frac : ℕ) (s : String) (pre : List Char)
    (dCh : Char) (P E0 : List Char)
    (hpre : pre = [] ∨ pre = ['-'])
    (hs : s.data = pre ++ dCh :: '.' :: (P ++ 'e' :: E0))
    (hd : dCh.isDigit = true) (hP : P.length = frac)
    (hPd : P.all Char.isDigit = true)
    (hE : ∃ sg ds, E0 = sg :: ds ∧ (sg = '+' ∨ sg = '-') ∧ 2 ≤ ds.length ∧
      ds.all Char.isDigit = true) :
    isSciString frac s = true := by
  unfold isSciString
  obtain ⟨sg, ds, hE0, hsg, hlen, hds⟩ := hE
  subst hE0
  have htake : (P ++ 'e' :: sg :: ds).take frac = P := by
    rw [← hP]
    exact List.take_left _ _
  have hdrop : (P ++ 'e' :: sg :: ds).drop frac = 'e' :: sg :: ds := by
    rw [← hP]
    exact List.drop_left _ _
  rcases hpre with h | h
  · rw [h] at hs
    rw [hs, List.nil_append]
    have hne : ¬ ((dCh :: '.' :: (P ++ 'e' :: sg :: ds)).head? = some '-') := by
      simp only [List.head?_cons, Option.some.injEq]
      intro hcontra
      rw [hcontra] at hd
      exact absurd hd (by decide)
    rw [if_neg hne]
    simp only [htake, hdrop]
    rcases hsg with h' | h' <;> rw [h'] <;> simp [hd, hds, hlen, hPd, hP]
  · rw [h] at hs
    rw [hs, List.cons_append]
    have hpos : (('-' :: ([] ++ dCh :: '.' :: (P ++ 'e' :: sg :: ds))).head? = some '-') := by
      simp
    rw [if_pos hpos]
    simp only [List.nil_append, List.tail_cons, htake, hdrop]
    rcases hsg with h' | h' <;> rw [h'] <;> simp [hd, hds, hlen, hPd, hP]

/-- Every value printed by `pyFormatE16` has 17 mantissa digits (one before
the point, 16 after) and the shape of scientific notation. -/
theorem pyFormatE16_shape (q : ℚ) :
    mantissaSigDigits (pyFormatE16 q) = 17 ∧ isSciString 16 (pyFormatE16 q) = true := by
  by_cases hq : q = 0
  · rw [hq]
    exact ⟨by decide, by decide⟩
  · have hn : 0 < q.num.natAbs := Int.natAbs_pos.mpr (Rat.num_ne_zero.mpr hq)
    have hdpos : 0 < q.den := q.den_pos
    obtain ⟨hm1, hm2⟩ := decMantissa16_bounds q.num.natAbs q.den hn hdpos
    have hdata : (pyFormatE16 q).data =
        (if q < 0 then ['-'] else []) ++
          natDigitChar ((decMantissa16 q.num.natAbs q.den).1 / 10 ^ 16) :: '.' ::
            (padDigits 16 ((decMantissa16 q.num.natAbs q.den).1 % 10 ^ 16) ++
              'e' :: expChars (decMantissa16 q.num.natAbs q.den).2) := by
      rw [pyFormatE16, if_neg hq]
      rw [String.data_append, String.data_append]
      by_cases hneg : q < 0 <;> simp [hneg, List.append_assoc]
    have hpre : (if q < 0 then ['-'] else ([] : List Char)) = [] ∨
        (if q < 0 then ['-'] else ([] : List Char)) = ['-'] := by
      by_cases hneg : q < 0
      · right
        rw [if_pos hneg]
      · left
        rw [if_neg hneg]
    have hdch : (natDigitChar ((decMantissa16 q.num.natAbs q.den).1 / 10 ^ 16)).isDigit
        = true := by
      apply natDigitChar_isDigit
      rw [Nat.div_lt_iff_lt_mul (by positivity)]
      have he : (10 : ℕ) * 10 ^ 16 = 10 ^ 17 := by norm_num
      omega
    have hPlen : (padDigits 16 ((decMantissa16 q.num.natAbs q.den).1 % 10 ^ 16)).length
        = 16 := padDigits_length 16 _
    have hPd : (padDigits 16 ((decMantissa16 q.num.natAbs q.den).1 % 10 ^ 16)).all
        Char.isDigit = true :=
      padDigits_all_digit 16 _ (Nat.mod_lt _ (by positivity))
    constructor
    · rw [mantissaSigDigits_of_parts (pyFormatE16 q) _ _ _ _ hpre hdata hdch hPd,
        hPlen]
    · exact isSciString_of_parts 16 (pyFormatE16 q) _ _ _ _ hpre hdata hdch hPlen hPd
        (expChars_shape _)

theorem findChild_updateGTText (root : XML) (s : String) :
    ∃ el : XML, findChild "GeoTransform" (updateGTText root s).children = some el ∧
      el.text = some s := by
  obtain ⟨rt, rx, rcs⟩ := root
  cases hset : setTextFirst "GeoTransform" s rcs with
  | some m =>
      have hup : updateGTText (XML.elem rt rx rcs) s = XML.elem rt rx m := by
        unfold updateGTText
        rw [XML.children_elem, hset]
        rfl
      rw [hup, XML.children_elem]
      obtain ⟨c, _, hc2, _⟩ := findChild_setTextFirst "GeoTransform" s rcs m hset
      exact ⟨_, hc2, rfl⟩
  | none =>
      have hno : ∀ c ∈ rcs, c.tag ≠ "GeoTransform" := by
        rw [← findChild_none_iff, ← setTextFirst_none_iff "GeoTransform" s]
        exact hset
      cases hidx : idxOfTag "SRS" rcs with
      | some i =>
          have hup : updateGTText (XML.elem rt rx rcs) s =
              XML.elem rt rx
                (insertAtIdx (i + 1) (XML.elem "GeoTransform" (some s) []) rcs) := by
            unfold updateGTText
            rw [XML.children_elem, hset, hidx]
            rfl
          rw [hup, XML.children_elem]
          refine ⟨XML.elem "GeoTransform" (some s) [], ?_, rfl⟩
          unfold insertAtIdx
          rw [findChild_append_left_none _ _ _
            (fun c hc => hno c (List.mem_of_mem_take hc))]
          rw [findChild_cons, XML.tag_elem, if_pos rfl]
      | none =>
          have hup : updateGTText (XML.elem rt rx rcs) s =
              XML.elem rt rx
                (insertAtIdx 0 (XML.elem "GeoTransform" (some s) []) rcs) := by
            unfold updateGTText
            rw [XML.children_elem, hset, hidx]
            rfl
          rw [hup, XML.children_elem]
          refine ⟨XML.elem "GeoTransform" (some s) [], ?_, rfl⟩
          unfold insertAtIdx
          rw [List.take_zero, List.nil_append, findChild_cons, XML.tag_elem,
            if_pos rfl]

/-- C5 counterexample: the first value of `format_geotransform (1,0,0,0,0,0)`,
namely `f"{1.0:.16e}" = "1.0000000000000000e+00"`, has 17 significant mantissa
digits, not 16 — the `%.16e` format puts 16 digits after the decimal point and
one before it. -/
theorem C5_format_geotransform_counterexample :
    ¬ (∀ s ∈ (gtToList ⟨1, 0, 0, 0, 0, 0⟩).map pyFormatE16,
        mantissaSigDigits s = 16) := by
  intro h
  have hmem : pyFormatE16 1 ∈ (gtToList ⟨1, 0, 0, 0, 0, 0⟩).map pyFormatE16 := by
    simp [gtToList]
  have heval : pyFormatE16 1 = "1.0000000000000000e+00" := by
    rw [pyFormatE16, if_neg (by norm_num : ¬ (1 : ℚ) = 0),
      if_neg (by norm_num : ¬ (1 : ℚ) < 0)]
    norm_num [Rat.num_one, Rat.den_one]
    decide
  have h16 := h (pyFormatE16 1) hmem
  rw [heval] at h16
  exact absurd h16 (by decide)

/-- C5 (amended): `format_geotransform` produces two leading spaces followed
by the six coefficients, each in scientific notation with 17 significant
digits (16 digits after the decimal point, the `%.16e` format), separated by
`", "`, and this exact string becomes the text of the clone's `GeoTransform`
element. -/
theorem C5_format_geotransform :
    ∀ gt : GT6,
      format_geotransform gt =
        "  " ++ String.intercalate ", " ((gtToList gt).map pyFormatE16) ∧
      (∀ s ∈ (gtToList gt).map pyFormatE16,
        mantissaSigDigits s = 17 ∧ isSciString 16 s = true) ∧
      (∀ root : XML, ∃ el : XML,
        findChild "GeoTransform"
            (update_geotransform_in_auxxml root gt).children = some el ∧
          el.text = some (format_geotransform gt)) := by
  intro gt
  refine ⟨rfl, ?_, ?_⟩
  · intro s hs
    obtain ⟨q, _, rfl⟩ := List.mem_map.mp hs
    exact pyFormatE16_shape q
  · intro root
    exact findChild_updateGTText root (format_geotransform gt)

/-- C5 witness: the amended claim evaluated at the transform `(1,0,0,0,0,0)`
and an empty `PAMDataset` root. -/
theorem C5_format_geotransform_witness :
    format_geotransform ⟨1, 0, 0, 0, 0, 0⟩ =
      "  " ++ String.intercalate ", " ((gtToList ⟨1, 0, 0, 0, 0, 0⟩).map pyFormatE16) ∧
    (mantissaSigDigits (pyFormatE16 1) = 17 ∧ isSciString 16 (pyFormatE16 1) = true) ∧
    (∃ el : XML, findChild "GeoTransform"
        (update_geotransform_in_auxxml (XML.elem "PAMDataset" none [])
          ⟨1, 0, 0, 0, 0, 0⟩).children = some el ∧
      el.text = some (format_geotransform ⟨1, 0, 0, 0, 0, 0⟩)) := by
  have h := C5_format_geotransform ⟨1, 0, 0, 0, 0, 0⟩
  exact ⟨h.1, h.2.1 (pyFormatE16 1) (by simp [gtToList]), h.2.2 _⟩

/-! ### Reference aux.xml loading and the main loop
(create_projection_files.py lines 80-85, 132-260) -/

/-- Python `str.split(",")` on a character list: split at every comma, keeping
empty fields. -/
def splitCommaChars : List Char → List (List Char)
  | [] => [[]]
  | c :: cs =>
      if c = ',' then [] :: splitCommaChars cs
      else
        match splitCommaChars cs with
        | h :: t => (c :: h) :: t
        | [] => [[c]]

/-- Python `float(...)` on a character list. -/
def parseFloatList (l : List Char) : Option ℚ :=
  (parseFloatRaw l).map FloatLit.toRat

/-- The comma-separated parts of a GeoTransform text after
`gt_text.replace("\n", " ")` and per-part `strip()`
(create_projection_files.py line 82). -/
def gtTextParts (s : String) : List (List Char) :=
  (splitCommaChars (s.data.map fun c => if c = '\n' then ' ' else c)).map pyStripChars

/-- Conversion of the six stripped parts by `float(x)`; `none` models a raised
`ValueError`. -/
def parseSixFloats (ps : List (List Char)) : Option GT6 :=
  match ps with
  | [p0, p1, p2, p3, p4, p5] =>
      match parseFloatList p0, parseFloatList p1, parseFloatList p2,
          parseFloatList p3, parseFloatList p4, parseFloatList p5 with
      | some a0, some a1, some a2, some a3, some a4, some a5 =>
          some ⟨a0, a1, a2, a3, a4, a5⟩
      | _, _, _, _, _, _ => none
  | _ => none

/-- Embedding of `parse_geotransform_text(gt_text)`
(create_projection_files.py lines 80-85): replace newlines by spaces, split on
commas, strip each part, require exactly six float-parseable values;
`Except.error` models the raised `ValueError`. -/
def parse_geotransform_text (s : String) : Except String GT6 :=
  if (gtTextParts s).length = 6 then
    match parseSixFloats (gtTextParts s) with
    | some gt => .ok gt
    | none => .error "could not convert string to float"
  else .error "GeoTransform does not have 6 values"

/-- Embedding of the reference-validation block of `main`
(create_projection_files.py lines 212-219), applied to the tree returned by a
successful `ET.parse`: the root tag must be `PAMDataset`, the `GeoTransform`
child must exist with non-empty (after `strip()`) text, and the text must
parse into six floats. -/
def validateAux (x : XML) : Except String (XML × GT6) :=
  if x.tag ≠ "PAMDataset" then .error ("Unexpected root tag: " ++ x.tag)
  else
    match findChild "GeoTransform" x.children with
    | none => .error "Reference aux.xml missing GeoTransform text"
    | some g =>
        match g.text with
        | none => .error "Reference aux.xml missing GeoTransform text"
        | some txt =>
            if pyStrip txt = "" then
              .error "Reference aux.xml missing GeoTransform text"
            else (parse_geotransform_text txt).map (fun gt => (x, gt))

/-- A tile file produced by the directory iteration of `main`
(create_projection_files.py line 173): its path, its stem, and whether
`tile_path.is_file()` holds. -/
structure Tile where
  path : String
  stem : String
  isFile : Bool

/-- The parts of `main`'s per-tile pipeline whose behaviour depends on the
filesystem or on unclaimed helpers, abstracted as an environment fixed for the
run: `extractBaseFrame` is `extract_ref_base_and_frame` (lines 30-38),
`chooseRef` is `choose_reference` over the pre-built index (lines 41-77, 195),
`auxExists` is `ref_aux.exists()` (line 203), `parseAuxFile` is
`ET.parse(ref_aux)` (line 212, `Except.error` for unparseable XML), and
`imageOpens` is the `Image.open` probe (lines 228-233). -/
structure Env where
  extractBaseFrame : String → Option (String × Option String)
  chooseRef : String → Option String → Option String
  auxExists : String → Bool
  parseAuxFile : String → Except String XML
  imageOpens : String → Bool

/-- The command-line options that affect the modelled loop. -/
structure Args where
  stride : ℤ
  swapRowcol : Bool

/-- The mutable state of `main`'s loop: the reference cache, the four
counters, the written sidecar files, and (as instrumentation for the caching
claims) the log of `ET.parse` invocations in order. -/
structure RunSt where
  cache : List (String × (XML × GT6))
  processed : ℕ
  skipped : ℕ
  noRef : ℕ
  badRef : ℕ
  outputs : List (String × XML)
  parses : List String

/-- Lines 227-252 of create_projection_files.py: probe the tile image, compute
the pixel offsets `row*stride`, `col*stride`, shift the reference transform,
deep-clone the cached template, update the clone's transform and write it to
`<tile>.aux.xml`. -/
def processLoaded (env : Env) (args : Args) (st : RunSt) (tile : Tile)
    (tileRow tileCol : ℕ) (tv : XML × GT6) : RunSt :=
  if ¬ env.imageOpens tile.path then { st with skipped := st.skipped + 1 }
  else
    let rowOff := (tileRow : ℤ) * args.stride
    let colOff := (tileCol : ℤ) * args.stride
    let tileGt := shifted_geotransform tv.2 colOff rowOff
    let auxTree := update_geotransform_in_auxxml (deepClone tv.1) tileGt
    { st with
      processed := st.processed + 1
      outputs := st.outputs ++ [(tile.path ++ ".aux.xml", auxTree)] }

/-- One iteration of `main`'s tile loop (create_projection_files.py
lines 173-252). -/
def processTile (env : Env) (args : Args) (st : RunSt) (tile : Tile) : RunSt :=
  if ¬ tile.isFile then st
  else
    match parse_last_two tile.stem with
    | none => { st with skipped := st.skipped + 1 }
    | some ab =>
        let rc := rowColOf args.swapRowcol ab
        match env.extractBaseFrame (normalize_stem tile.stem) with
        | none => { st with skipped := st.skipped + 1 }
        | some bf =>
            match env.chooseRef bf.1 bf.2 with
            | none => { st with noRef := st.noRef + 1 }
            | some refJpg =>
                if ¬ env.auxExists (refJpg ++ ".aux.xml") then
                  { st with badRef := st.badRef + 1 }
                else
                  match List.lookup refJpg st.cache with
                  | some tv => processLoaded env args st tile rc.1 rc.2 tv
                  | none =>
                      match (env.parseAuxFile (refJpg ++ ".aux.xml")).bind validateAux with
                      | .error _ =>
                          { st with
                            badRef := st.badRef + 1
                            parses := st.parses ++ [refJpg ++ ".aux.xml"] }
                      | .ok tv =>
                          processLoaded env args
                            { st with
                              cache := st.cache ++ [(refJpg, tv)]
                              parses := st.parses ++ [refJpg ++ ".aux.xml"] }
                            tile rc.1 rc.2 tv

/-- The whole tile loop of `main`. -/
def runTiles (env : Env) (args : Args) (st : RunSt) (tiles : List Tile) : RunSt :=
  tiles.foldl (processTile env args) st

theorem lookup_append_some {β : Type} (r : String) (v : β) :
    ∀ (l1 : List (String × β)) (l2 : List (String × β)),
      List.lookup r l1 = some v → List.lookup r (l1 ++ l2) = some v := by
  intro l1 l2 h
  induction l1 with
  | nil => exact absurd h (by simp)
  | cons kv t ih =>
      obtain ⟨k, w⟩ := kv
      rw [List.lookup_cons] at h
      rw [List.cons_append, List.lookup_cons]
      cases hk : (r == k) with
      | false =>
          rw [hk] at h
          simp only at h ⊢
          exact ih h
      | true =>
          rw [hk] at h
          simp only at h ⊢
          exact h

theorem processLoaded_cache_parses (env : Env) (args : Args) (st : RunSt)
    (tile : Tile) (tileRow tileCol : ℕ) (tv : XML × GT6) :
    (processLoaded env args st tile tileRow tileCol tv).cache = st.cache ∧
    (processLoaded env args st tile tileRow tileCol tv).parses = st.parses := by
  unfold processLoaded
  by_cases h : env.imageOpens tile.path
  · simp [h]
  · simp [h]

theorem processLoaded_ok (env : Env) (args : Args) (st : RunSt) (tile : Tile)
    (tileRow tileCol : ℕ) (tv : XML × GT6)
    (himg : env.imageOpens tile.path = true) :
    processLoaded env args st tile tileRow tileCol tv =
      { st with
        processed := st.processed + 1
        outputs := st.outputs ++
          [(tile.path ++ ".aux.xml",
            update_geotransform_in_auxxml (deepClone tv.1)
              (shifted_geotransform tv.2 ((tileCol : ℤ) * args.stride)
                ((tileRow : ℤ) * args.stride)))] } := by
  unfold processLoaded
  simp [himg]

theorem processLoaded_imageFail (env : Env) (args : Args) (st : RunSt)
    (tile : Tile) (tileRow tileCol : ℕ) (tv : XML × GT6)
    (himg : env.imageOpens tile.path = false) :
    processLoaded env args st tile tileRow tileCol tv =
      { st with skipped := st.skipped + 1 } := by
  unfold processLoaded
  simp [himg]

theorem processTile_notFile (env : Env) (args : Args) (st : RunSt) (tile : Tile)
    (h : tile.isFile = false) :
    processTile env args st tile = st := by
  unfold processTile
  simp [h]

theorem processTile_noParse (env : Env) (args : Args) (st : RunSt) (tile : Tile)
    (hfile : tile.isFile = true) (hpar : parse_last_two tile.stem = none) :
    processTile env args st tile = { st with skipped := st.skipped + 1 } := by
  unfold processTile
  simp [hfile, hpar]

theorem processTile_cacheHit (env : Env) (args : Args) (st : RunSt) (tile : Tile)
    (ab : ℕ × ℕ) (bf : String × Option String) (refJpg : String)
    (tv : XML × GT6)
    (hfile : tile.isFile = true) (hpar : parse_last_two tile.stem = some ab)
    (hbf : env.extractBaseFrame (normalize_stem tile.stem) = some bf)
    (href : env.chooseRef bf.1 bf.2 = some refJpg)
    (haux : env.auxExists (refJpg ++ ".aux.xml") = true)
    (hcache : List.lookup refJpg st.cache = some tv) :
    processTile env args st tile =
      processLoaded env args st tile (rowColOf args.swapRowcol ab).1
        (rowColOf args.swapRowcol ab).2 tv := by
  unfold processTile
  simp [hfile, hpar, hbf, href, haux, hcache]

theorem processTile_loadFail (env : Env) (args : Args) (st : RunSt) (tile : Tile)
    (ab : ℕ × ℕ) (bf : String × Option String) (refJpg : String) (e : String)
    (hfile : tile.isFile = true) (hpar : parse_last_two tile.stem = some ab)
    (hbf : env.extractBaseFrame (normalize_stem tile.stem) = some bf)
    (href : env.chooseRef bf.1 bf.2 = some refJpg)
    (haux : env.auxExists (refJpg ++ ".aux.xml") = true)
    (hcache : List.lookup refJpg st.cache = none)
    (hload : (env.parseAuxFile (refJpg ++ ".aux.xml")).bind validateAux =
      .error e) :
    processTile env args st tile =
      { st with
        badRef := st.badRef + 1
        parses := st.parses ++ [refJpg ++ ".aux.xml"] } := by
  unfold processTile
  simp [hfile, hpar, hbf, href, haux, hcache, hload]

theorem processTile_loadOk (env : Env) (args : Args) (st : RunSt) (tile : Tile)
    (ab : ℕ × ℕ) (bf : String × Option String) (refJpg : String)
    (tv : XML × GT6)
    (hfile : tile.isFile = true) (hpar : parse_last_two tile.stem = some ab)
    (hbf : env.extractBaseFrame (normalize_stem tile.stem) = some bf)
    (href : env.chooseRef bf.1 bf.2 = some refJpg)
    (haux : env.auxExists (refJpg ++ ".aux.xml") = true)
    (hcache : List.lookup refJpg st.cache = none)
    (hload : (env.parseAuxFile (refJpg ++ ".aux.xml")).bind validateAux =
      .ok tv) :
    processTile env args st tile =
      processLoaded env args
        { st with
          cache := st.cache ++ [(refJpg, tv)]
          parses := st.parses ++ [refJpg ++ ".aux.xml"] }
        tile (rowColOf args.swapRowcol ab).1 (rowColOf args.swapRowcol ab).2 tv := by
  unfold processTile
  simp [hfile, hpar, hbf, href, haux, hcache, hload]

theorem processTile_noBase (env : Env) (args : Args) (st : RunSt) (tile : Tile)
    (ab : ℕ × ℕ)
    (hfile : tile.isFile = true) (hpar : parse_last_two tile.stem = some ab)
    (hbf : env.extractBaseFrame (normalize_stem tile.stem) = none) :
    processTile env args st tile = { st with skipped := st.skipped + 1 } := by
  unfold processTile
  simp [hfile, hpar, hbf]

theorem processTile_noRef (env : Env) (args : Args) (st : RunSt) (tile : Tile)
    (ab : ℕ × ℕ) (bf : String × Option String)
    (hfile : tile.isFile = true) (hpar : parse_last_two tile.stem = some ab)
    (hbf : env.extractBaseFrame (normalize_stem tile.stem) = some bf)
    (href : env.chooseRef bf.1 bf.2 = none) :
    processTile env args st tile = { st with noRef := st.noRef + 1 } := by
  unfold processTile
  simp [hfile, hpar, hbf, href]

theorem processTile_noAux (env : Env) (args : Args) (st : RunSt) (tile : Tile)
    (ab : ℕ × ℕ) (bf : String × Option String) (refJpg : String)
    (hfile : tile.isFile = true) (hpar : parse_last_two tile.stem = some ab)
    (hbf : env.extractBaseFrame (normalize_stem tile.stem) = some bf)
    (href : env.chooseRef bf.1 bf.2 = some refJpg)
    (haux : env.auxExists (refJpg ++ ".aux.xml") = false) :
    processTile env args st tile = { st with badRef := st.badRef + 1 } := by
  unfold processTile
  simp [hfile, hpar, hbf, href, haux]

theorem strApp_ne_of_ne {a b : String} (c : String) (h : a ≠ b) :
    a ++ c ≠ b ++ c := by
  intro he
  apply h
  apply String.ext
  have hd := congrArg String.data he
  rw [String.data_append, String.data_append] at hd
  exact List.append_cancel_right hd

theorem processTile_cache_mono (env : Env) (args : Args) (st : RunSt)
    (tile : Tile) (r : String) (v : XML × GT6)
    (h : List.lookup r st.cache = some v) :
    List.lookup r (processTile env args st tile).cache = some v ∧
      (processTile env args st tile).parses.count (r ++ ".aux.xml") =
        st.parses.count (r ++ ".aux.xml") := by
  by_cases hfile : tile.isFile = true
  case neg =>
    rw [processTile_notFile env args st tile (Bool.not_eq_true _ ▸ hfile)]
    exact ⟨h, rfl⟩
  cases hpar : parse_last_two tile.stem with
  | none =>
      rw [processTile_noParse env args st tile hfile hpar]
      exact ⟨h, rfl⟩
  | some ab =>
      cases hbf : env.extractBaseFrame (normalize_stem tile.stem) with
      | none =>
          rw [processTile_noBase env args st tile ab hfile hpar hbf]
          exact ⟨h, rfl⟩
      | some bf =>
          cases href : env.chooseRef bf.1 bf.2 with
          | none =>
              rw [processTile_noRef env args st tile ab bf hfile hpar hbf href]
              exact ⟨h, rfl⟩
          | some refJpg =>
              by_cases haux : env.auxExists (refJpg ++ ".aux.xml") = true
              case neg =>
                rw [processTile_noAux env args st tile ab bf refJpg hfile hpar
                  hbf href (Bool.not_eq_true _ ▸ haux)]
                exact ⟨h, rfl⟩
              cases hcache2 : List.lookup refJpg st.cache with
              | some tv =>
                  rw [processTile_cacheHit env args st tile ab bf refJpg tv
                    hfile hpar hbf href haux hcache2]
                  obtain ⟨hc, hp⟩ := processLoaded_cache_parses env args st tile
                    (rowColOf args.swapRowcol ab).1 (rowColOf args.swapRowcol ab).2 tv
                  rw [hc, hp]
                  exact ⟨h, rfl⟩
              | none =>
                  have hne : refJpg ≠ r := by
                    intro he
                    rw [he, h] at hcache2
                    exact Option.noConfusion hcache2
                  have hcount : (st.parses ++ [refJpg ++ ".aux.xml"]).count
                      (r ++ ".aux.xml") = st.parses.count (r ++ ".aux.xml") := by
                    rw [List.count_append, List.count_singleton]
                    rw [if_neg fun hb =>
                      strApp_ne_of_ne ".aux.xml" hne (beq_iff_eq.mp hb)]
                    omega
                  cases hload : (env.parseAuxFile (refJpg ++ ".aux.xml")).bind
                      validateAux with
                  | error e =>
                      rw [processTile_loadFail env args st tile ab bf refJpg e
                        hfile hpar hbf href haux hcache2 hload]
                      exact ⟨h, hcount⟩
                  | ok tv =>
                      rw [processTile_loadOk env args st tile ab bf refJpg tv
                        hfile hpar hbf href haux hcache2 hload]
                      obtain ⟨hc, hp⟩ := processLoaded_cache_parses env args
                        { st with
                          cache := st.cache ++ [(refJpg, tv)]
                          parses := st.parses ++ [refJpg ++ ".aux.xml"] }
                        tile (rowColOf args.swapRowcol ab).1
                        (rowColOf args.swapRowcol ab).2 tv
                      rw [hc, hp]
                      exact ⟨lookup_append_some r v st.cache [(refJpg, tv)] h,
                        hcount⟩

theorem runTiles_cache_mono (env : Env) (args : Args) :
    ∀ (tiles : List Tile) (st : RunSt) (r : String) (v : XML × GT6),
      List.lookup r st.cache = some v →
      List.lookup r (runTiles env args st tiles).cache = some v ∧
        (runTiles env args st tiles).parses.count (r ++ ".aux.xml") =
          st.parses.count (r ++ ".aux.xml") := by
  intro tiles
  induction tiles with
  | nil => intro st r v h; exact ⟨h, rfl⟩
  | cons tile rest ih =>
      intro st r v h
      obtain ⟨h1, h2⟩ := processTile_cache_mono env args st tile r v h
      obtain ⟨h3, h4⟩ := ih (processTile env args st tile) r v h1
      exact ⟨h3, by rw [runTiles] at h4 ⊢; rw [List.foldl_cons]; omega⟩

theorem parseSixFloats_isSome_of_all (ps : List (List Char)) (h6 : ps.length = 6)
    (hall : ∀ p ∈ ps, (parseFloatList p).isSome = true) :
    ∃ gt, parseSixFloats ps = some gt := by
  rcases ps with _ | ⟨p0, _ | ⟨p1, _ | ⟨p2, _ | ⟨p3, _ | ⟨p4, _ | ⟨p5, _ | ⟨p6, rest⟩⟩⟩⟩⟩⟩⟩ <;>
    simp only [List.length_nil, List.length_cons] at h6 <;> try omega
  obtain ⟨a0, h0⟩ := Option.isSome_iff_exists.mp (hall p0 (by simp))
  obtain ⟨a1, h1⟩ := Option.isSome_iff_exists.mp (hall p1 (by simp))
  obtain ⟨a2, h2⟩ := Option.isSome_iff_exists.mp (hall p2 (by simp))
  obtain ⟨a3, h3⟩ := Option.isSome_iff_exists.mp (hall p3 (by simp))
  obtain ⟨a4, h4⟩ := Option.isSome_iff_exists.mp (hall p4 (by simp))
  obtain ⟨a5, h5⟩ := Option.isSome_iff_exists.mp (hall p5 (by simp))
  refine ⟨⟨a0, a1, a2, a3, a4, a5⟩, ?_⟩
  rw [parseSixFloats, h0, h1, h2, h3, h4, h5]

theorem parseSixFloats_all_of_some (ps : List (List Char)) (gt : GT6)
    (h : parseSixFloats ps = some gt) :
    ps.length = 6 ∧ ∀ p ∈ ps, (parseFloatList p).isSome = true := by
  rcases ps with _ | ⟨p0, ps⟩
  · exact absurd h (by simp [parseSixFloats])
  rcases ps with _ | ⟨p1, ps⟩
  · exact absurd h (by simp [parseSixFloats])
  rcases ps with _ | ⟨p2, ps⟩
  · exact absurd h (by simp [parseSixFloats])
  rcases ps with _ | ⟨p3, ps⟩
  · exact absurd h (by simp [parseSixFloats])
  rcases ps with _ | ⟨p4, ps⟩
  · exact absurd h (by simp [parseSixFloats])
  rcases ps with _ | ⟨p5, ps⟩
  · exact absurd h (by simp [parseSixFloats])
  rcases ps with _ | ⟨p6, ps⟩
  swap
  · exact absurd h (by simp [parseSixFloats])
  refine ⟨rfl, ?_⟩
  rw [parseSixFloats] at h
  cases h0 : parseFloatList p0 with
  | none => rw [h0] at h; exact absurd h (by simp)
  | some a0 =>
  rw [h0] at h
  cases h1 : parseFloatList p1 with
  | none => rw [h1] at h; exact absurd h (by simp)
  | some a1 =>
  rw [h1] at h
  cases h2 : parseFloatList p2 with
  | none => rw [h2] at h; exact absurd h (by simp)
  | some a2 =>
  rw [h2] at h
  cases h3 : parseFloatList p3 with
  | none => rw [h3] at h; exact absurd h (by simp)
  | some a3 =>
  rw [h3] at h
  cases h4 : parseFloatList p4 with
  | none => rw [h4] at h; exact absurd h (by simp)
  | some a4 =>
  rw [h4] at h
  cases h5 : parseFloatList p5 with
  | none => rw [h5] at h; exact absurd h (by simp)
  | some a5 =>
  intro p hp
  simp only [List.mem_cons, List.not_mem_nil, or_false] at hp
  rcases hp with rfl | rfl | rfl | rfl | rfl | rfl <;>
    simp [h0, h1, h2, h3, h4, h5]

theorem parse_geotransform_text_error_iff (txt : String) :
    (∃ e, parse_geotransform_text txt = .error e) ↔
      ¬ ((gtTextParts txt).length = 6 ∧
        ∀ p ∈ gtTextParts txt, (parseFloatList p).isSome = true) := by
  constructor
  · rintro ⟨e, he⟩ ⟨hlen, hall⟩
    rw [parse_geotransform_text, if_pos hlen] at he
    obtain ⟨gt, hgt⟩ := parseSixFloats_isSome_of_all (gtTextParts txt) hlen hall
    rw [hgt] at he
    exact Except.noConfusion he
  · intro hno
    rw [parse_geotransform_text]
    by_cases hlen : (gtTextParts txt).length = 6
    · rw [if_pos hlen]
      cases hsix : parseSixFloats (gtTextParts txt) with
      | none => exact ⟨_, rfl⟩
      | some gt =>
          exact absurd (parseSixFloats_all_of_some _ _ hsix) hno
    · rw [if_neg hlen]
      exact ⟨_, rfl⟩

/-- The failure condition as the spec states it (claim C6): the root tag is
not `PAMDataset`, or the `GeoTransform` child is absent, or its text is
missing or whitespace-only, or the text does not split on commas into exactly
six float-parseable values. -/
def specAuxLoadFailure (x : XML) : Prop :=
  x.tag ≠ "PAMDataset" ∨
    findChild "GeoTransform" x.children = none ∨
    (∃ g, findChild "GeoTransform" x.children = some g ∧
      (g.text = none ∨ ∃ txt, g.text = some txt ∧ pyStrip txt = "")) ∨
    (∃ g txt, findChild "GeoTransform" x.children = some g ∧ g.text = some txt ∧
      ¬ ((gtTextParts txt).length = 6 ∧
        ∀ p ∈ gtTextParts txt, (parseFloatList p).isSome = true))

theorem validateAux_error_iff (x : XML) :
    (∃ e, validateAux x = .error e) ↔ specAuxLoadFailure x := by
  unfold validateAux specAuxLoadFailure
  by_cases htag : x.tag = "PAMDataset"
  case neg =>
    rw [if_pos htag]
    constructor
    · intro _
      exact Or.inl htag
    · intro _
      exact ⟨_, rfl⟩
  case pos =>
    rw [if_neg (fun hcon => hcon htag)]
    cases hfind : findChild "GeoTransform" x.children with
    | none =>
        simp only []
        constructor
        · intro _
          exact Or.inr (Or.inl trivial)
        · intro _
          exact ⟨_, rfl⟩
    | some g =>
        simp only []
        cases htext : g.text with
        | none =>
            simp only []
            constructor
            · intro _
              refine Or.inr (Or.inr (Or.inl ⟨g, rfl, Or.inl htext⟩))
            · intro _
              exact ⟨_, rfl⟩
        | some txt =>
            simp only []
            by_cases hstrip : pyStrip txt = ""
            · rw [if_pos hstrip]
              constructor
              · intro _
                exact Or.inr (Or.inr (Or.inl ⟨g, rfl, Or.inr ⟨txt, htext, hstrip⟩⟩))
              · intro _
                exact ⟨_, rfl⟩
            · rw [if_neg hstrip]
              constructor
              · rintro ⟨e, he⟩
                cases hp : parse_geotransform_text txt with
                | error e' =>
                    refine Or.inr (Or.inr (Or.inr ⟨g, txt, rfl, htext, ?_⟩))
                    exact (parse_geotransform_text_error_iff txt).mp ⟨e', hp⟩
                | ok gt =>
                    rw [hp] at he
                    exact Except.noConfusion he
              · rintro (h | h | h | h)
                · exact absurd htag h
                · exact Option.noConfusion h
                · obtain ⟨g', hg', hbad⟩ := h
                  obtain rfl := Option.some.inj hg'
                  rcases hbad with hb | ⟨txt', ht', hs'⟩
                  · rw [htext] at hb
                    exact Option.noConfusion hb
                  · rw [htext] at ht'
                    obtain rfl := Option.some.inj ht'
                    exact absurd hs' hstrip
                · obtain ⟨g', txt', hg', ht', hbad⟩ := h
                  obtain rfl := Option.some.inj hg'
                  rw [htext] at ht'
                  obtain rfl := Option.some.inj ht'
                  obtain ⟨e', he'⟩ := (parse_geotransform_text_error_iff txt).mpr hbad
                  rw [he']
                  exact ⟨e', rfl⟩

theorem lookup_append_right_none {β : Type} (r : String)
    (l1 l2 : List (String × β)) (h : List.lookup r l1 = none) :
    List.lookup r (l1 ++ l2) = List.lookup r l2 := by
  induction l1 with
  | nil => rfl
  | cons kv t ih =>
      obtain ⟨k, w⟩ := kv
      rw [List.lookup_cons] at h
      rw [List.cons_append, List.lookup_cons]
      cases hk : (r == k) with
      | false =>
          rw [hk] at h
          simp only at h ⊢
          exact ih h
      | true =>
          rw [hk] at h
          simp only at h
          exact Option.noConfusion h

/-- A reference aux.xml tree that loads successfully. -/
def xmlGoodRoot : XML :=
  XML.elem "PAMDataset" none [XML.elem "GeoTransform" (some "1, 2, 3, 4, 5, 6") []]

/-- The transform carried by `xmlGoodRoot`. -/
def gtGood : GT6 := ⟨1, 2, 3, 4, 5, 6⟩

/-- A run environment whose single reference has an aux.xml with a wrong root
tag, so that loading always fails. -/
def envBadTag : Env :=
  ⟨fun _ => some ("base", none), fun _ _ => some "R.jpg", fun _ => true,
    fun _ => .ok (XML.elem "NotPAM" none []), fun _ => true⟩

/-- A run environment whose single reference loads successfully. -/
def envGood : Env :=
  ⟨fun _ => some ("base", none), fun _ _ => some "R.jpg", fun _ => true,
    fun _ => .ok xmlGoodRoot, fun _ => true⟩

/-- Default arguments: stride 512, no row/column swap. -/
def argsDefault : Args := ⟨512, false⟩

/-- Two tile files of the same reference. -/
def tileA : Tile := ⟨"t_0_0.jpg", "t_0_0", true⟩

/-- Second tile of the same reference. -/
def tileB : Tile := ⟨"t_0_1.jpg", "t_0_1", true⟩

/-- The initial run state. -/
def st0 : RunSt := ⟨[], 0, 0, 0, 0, [], []⟩

/-- A run state whose cache already holds a loaded reference. -/
def stCached : RunSt := ⟨[("S.jpg", (xmlGoodRoot, gtGood))], 0, 0, 0, 0, [], []⟩

theorem validateAux_xmlGoodRoot :
    validateAux xmlGoodRoot = .ok (xmlGoodRoot, gtGood) := by
  have h1 : parseFloatList ['1'] = some 1 := by
    have hr : parseFloatRaw ['1'] = some ⟨false, 1, 0, 0⟩ := by decide
    rw [parseFloatList, hr, Option.map_some']
    norm_num [FloatLit.toRat]
  have h2 : parseFloatList ['2'] = some 2 := by
    have hr : parseFloatRaw ['2'] = some ⟨false, 2, 0, 0⟩ := by decide
    rw [parseFloatList, hr, Option.map_some']
    norm_num [FloatLit.toRat]
  have h3 : parseFloatList ['3'] = some 3 := by
    have hr : parseFloatRaw ['3'] = some ⟨false, 3, 0, 0⟩ := by decide
    rw [parseFloatList, hr, Option.map_some']
    norm_num [FloatLit.toRat]
  have h4 : parseFloatList ['4'] = some 4 := by
    have hr : parseFloatRaw ['4'] = some ⟨false, 4, 0, 0⟩ := by decide
    rw [parseFloatList, hr, Option.map_some']
    norm_num [FloatLit.toRat]
  have h5 : parseFloatList ['5'] = some 5 := by
    have hr : parseFloatRaw ['5'] = some ⟨false, 5, 0, 0⟩ := by decide
    rw [parseFloatList, hr, Option.map_some']
    norm_num [FloatLit.toRat]
  have h6 : parseFloatList ['6'] = some 6 := by
    have hr : parseFloatRaw ['6'] = some ⟨false, 6, 0, 0⟩ := by decide
    rw [parseFloatList, hr, Option.map_some']
    norm_num [FloatLit.toRat]
  have hparts : gtTextParts "1, 2, 3, 4, 5, 6" =
      [['1'], ['2'], ['3'], ['4'], ['5'], ['6']] := by decide
  have hsix : parseSixFloats [['1'], ['2'], ['3'], ['4'], ['5'], ['6']] =
      some gtGood := by
    rw [parseSixFloats, h1, h2, h3, h4, h5, h6]
    rfl
  have hpgt : parse_geotransform_text "1, 2, 3, 4, 5, 6" = .ok gtGood := by
    rw [parse_geotransform_text, hparts]
    simp [hsix]
  rw [validateAux]
  rw [if_neg (by rw [xmlGoodRoot, XML.tag_elem]; exact fun h => h rfl)]
  have hfind : findChild "GeoTransform" xmlGoodRoot.children =
      some (XML.elem "GeoTransform" (some "1, 2, 3, 4, 5, 6") []) := by
    rw [xmlGoodRoot, XML.children_elem, findChild_cons, XML.tag_elem, if_pos rfl]
  rw [hfind]
  simp only [XML.text_elem]
  rw [if_neg (by decide)]
  rw [hpgt]
  rfl

/-- C6: given a reference aux.xml that parses as XML, loading it fails exactly
when the root tag is not `PAMDataset`, or the `GeoTransform` child is absent
or has missing/whitespace-only text, or the text does not split on commas
into exactly six float-parseable values; a failing load counts the reference
as bad and skips the tile without writing an output while later tiles are
still processed, and a successful load (with a readable tile image) processes
the tile. -/
theorem C6_ref_load_failure :
    (∀ x : XML, (∃ e, validateAux x = .error e) ↔ specAuxLoadFailure x) ∧
    (∀ (env : Env) (args : Args) (st : RunSt) (tile : Tile) (ab : ℕ × ℕ)
        (bf : String × Option String) (refJpg e : String),
      tile.isFile = true → parse_last_two tile.stem = some ab →
      env.extractBaseFrame (normalize_stem tile.stem) = some bf →
      env.chooseRef bf.1 bf.2 = some refJpg →
      env.auxExists (refJpg ++ ".aux.xml") = true →
      List.lookup refJpg st.cache = none →
      (env.parseAuxFile (refJpg ++ ".aux.xml")).bind validateAux = .error e →
      processTile env args st tile =
        { st with
          badRef := st.badRef + 1
          parses := st.parses ++ [refJpg ++ ".aux.xml"] }) ∧
    (∀ (env : Env) (args : Args) (st : RunSt) (tile : Tile) (ab : ℕ × ℕ)
        (bf : String × Option String) (refJpg : String) (tv : XML × GT6),
      tile.isFile = true → parse_last_two tile.stem = some ab →
      env.extractBaseFrame (normalize_stem tile.stem) = some bf →
      env.chooseRef bf.1 bf.2 = some refJpg →
      env.auxExists (refJpg ++ ".aux.xml") = true →
      List.lookup refJpg st.cache = none →
      (env.parseAuxFile (refJpg ++ ".aux.xml")).bind validateAux = .ok tv →
      env.imageOpens tile.path = true →
      processTile env args st tile =
        { st with
          cache := st.cache ++ [(refJpg, tv)]
          parses := st.parses ++ [refJpg ++ ".aux.xml"]
          processed := st.processed + 1
          outputs := st.outputs ++
            [(tile.path ++ ".aux.xml",
              update_geotransform_in_auxxml (deepClone tv.1)
                (shifted_geotransform tv.2
                  (((rowColOf args.swapRowcol ab).2 : ℤ) * args.stride)
                  (((rowColOf args.swapRowcol ab).1 : ℤ) * args.stride)))] }) ∧
    (∀ (env : Env) (args : Args) (st : RunSt) (tile : Tile) (tiles : List Tile),
      runTiles env args st (tile :: tiles) =
        runTiles env args (processTile env args st tile) tiles) := by
  refine ⟨validateAux_error_iff, ?_, ?_, ?_⟩
  · intro env args st tile ab bf refJpg e hfile hpar hbf href haux hcache hload
    exact processTile_loadFail env args st tile ab bf refJpg e hfile hpar hbf
      href haux hcache hload
  · intro env args st tile ab bf refJpg tv hfile hpar hbf href haux hcache
      hload himg
    rw [processTile_loadOk env args st tile ab bf refJpg tv hfile hpar hbf
      href haux hcache hload]
    rw [processLoaded_ok _ _ _ _ _ _ _ himg]
  · intro env args st tile tiles
    rfl

/-- C6 witness: the characterization, the failing branch, and the successful
branch, each at a concrete run: a reference whose root tag is `NotPAM` makes
the tile count as a bad reference with no output, and the good reference
`xmlGoodRoot` leads to a processed tile with a written sidecar. -/
theorem C6_ref_load_failure_witness :
    (∃ e, validateAux (XML.elem "NotPAM" none []) = .error e) ∧
    processTile envBadTag argsDefault st0 tileA =
      { st0 with
        badRef := st0.badRef + 1
        parses := st0.parses ++ ["R.jpg" ++ ".aux.xml"] } ∧
    processTile envGood argsDefault st0 tileA =
      { st0 with
        cache := st0.cache ++ [("R.jpg", (xmlGoodRoot, gtGood))]
        parses := st0.parses ++ ["R.jpg" ++ ".aux.xml"]
        processed := st0.processed + 1
        outputs := st0.outputs ++
          [(tileA.path ++ ".aux.xml",
            update_geotransform_in_auxxml (deepClone xmlGoodRoot)
              (shifted_geotransform gtGood
                (((rowColOf argsDefault.swapRowcol (0, 0)).2 : ℤ) * argsDefault.stride)
                (((rowColOf argsDefault.swapRowcol (0, 0)).1 : ℤ) * argsDefault.stride)))] } := by
  refine ⟨?_, ?_, ?_⟩
  · refine (C6_ref_load_failure.1 (XML.elem "NotPAM" none [])).mpr ?_
    exact Or.inl (by rw [XML.tag_elem]; decide)
  · exact C6_ref_load_failure.2.1 envBadTag argsDefault st0 tileA (0, 0)
      ("base", none) "R.jpg" ("Unexpected root tag: " ++ "NotPAM")
      rfl (by decide) rfl rfl rfl rfl
      (by
        show validateAux (XML.elem "NotPAM" none []) = _
        rw [validateAux, if_pos (by rw [XML.tag_elem]; decide)]
        rfl)
  · exact C6_ref_load_failure.2.2.1 envGood argsDefault st0 tileA (0, 0)
      ("base", none) "R.jpg" (xmlGoodRoot, gtGood)
      rfl (by decide) rfl rfl rfl rfl
      (by
        show validateAux xmlGoodRoot = _
        exact validateAux_xmlGoodRoot)
      rfl

/-- C2: cached templates are never changed by writing tile sidecars — a cache
entry (its tree, hence its `GeoTransform` text) reads the same before tile N
as before tile 1; the per-tile deep clone equals the template; the outputs of
two tiles of the same reference differ only in the `GeoTransform` text (one
output equals the other with only that element's text rewritten); and two
tile transforms shifted from the same reference agree on all four
scale/rotation coefficients. -/
theorem C2_template_not_mutated :
    (∀ (env : Env) (args : Args) (tiles : List Tile) (st : RunSt) (r : String)
        (v : XML × GT6),
      List.lookup r st.cache = some v →
      List.lookup r (runTiles env args st tiles).cache = some v) ∧
    (∀ t : XML, deepClone t = t) ∧
    (∀ (tmpl : XML) (g1 g2 : GT6),
      update_geotransform_in_auxxml (deepClone tmpl) g1 =
        updateGTText (update_geotransform_in_auxxml (deepClone tmpl) g2)
          (format_geotransform g1)) ∧
    (∀ (gt : GT6) (c1 r1 c2 r2 : ℤ),
      (shifted_geotransform gt c1 r1).gt1 = (shifted_geotransform gt c2 r2).gt1 ∧
      (shifted_geotransform gt c1 r1).gt2 = (shifted_geotransform gt c2 r2).gt2 ∧
      (shifted_geotransform gt c1 r1).gt4 = (shifted_geotransform gt c2 r2).gt4 ∧
      (shifted_geotransform gt c1 r1).gt5 = (shifted_geotransform gt c2 r2).gt5) := by
  refine ⟨?_, deepClone_eq, ?_, ?_⟩
  · intro env args tiles st r v h
    exact (runTiles_cache_mono env args tiles st r v h).1
  · intro tmpl g1 g2
    exact (updateGTText_updateGTText (deepClone tmpl) (format_geotransform g1)
      (format_geotransform g2)).symm
  · intro gt c1 r1 c2 r2
    exact ⟨rfl, rfl, rfl, rfl⟩

/-- C2 witness: a cache entry for `S.jpg` survives a run over a tile of a
different (failing) reference, read back unchanged. -/
theorem C2_template_not_mutated_witness :
    List.lookup "S.jpg" (runTiles envBadTag argsDefault stCached [tileA]).cache =
      some (xmlGoodRoot, gtGood) := by
  exact C2_template_not_mutated.1 envBadTag argsDefault [tileA] stCached
    "S.jpg" (xmlGoodRoot, gtGood) rfl

/-- C4 counterexample: with a reference whose aux.xml fails to load (wrong
root tag) and two tiles of that reference, `ET.parse` is invoked twice for the
same aux path in one run — a failed load caches nothing, so the claim that
the parse operation is never invoked again also for failing references is
false on the code. -/
theorem C4_ref_cache_counterexample :
    (runTiles envBadTag argsDefault st0 [tileA, tileB]).parses.count
        ("R.jpg" ++ ".aux.xml") = 2 ∧
    ¬ ((runTiles envBadTag argsDefault st0 [tileA, tileB]).parses.count
        ("R.jpg" ++ ".aux.xml") ≤ 1) ∧
    (runTiles envBadTag argsDefault st0 [tileA, tileB]).badRef = 2 := by
  refine ⟨by decide, by decide, by decide⟩

/-- C4 (amended): once a reference is in the cache (i.e. after its first
successful load), its aux.xml is never parsed again during the run and the
cached value is served to every later tile; a successful parse inserts the
reference into the cache and logs exactly one parse; a failed parse caches
nothing, counts a bad reference, and the aux file is parsed again for each
later tile of that reference. -/
theorem C4_ref_parsed_once :
    (∀ (env : Env) (args : Args) (tiles : List Tile) (st : RunSt) (r : String)
        (v : XML × GT6),
      List.lookup r st.cache = some v →
      List.lookup r (runTiles env args st tiles).cache = some v ∧
        (runTiles env args st tiles).parses.count (r ++ ".aux.xml") =
          st.parses.count (r ++ ".aux.xml")) ∧
    (∀ (env : Env) (args : Args) (st : RunSt) (tile : Tile) (ab : ℕ × ℕ)
        (bf : String × Option String) (refJpg : String) (tv : XML × GT6),
      tile.isFile = true → parse_last_two tile.stem = some ab →
      env.extractBaseFrame (normalize_stem tile.stem) = some bf →
      env.chooseRef bf.1 bf.2 = some refJpg →
      env.auxExists (refJpg ++ ".aux.xml") = true →
      List.lookup refJpg st.cache = none →
      (env.parseAuxFile (refJpg ++ ".aux.xml")).bind validateAux = .ok tv →
      List.lookup refJpg (processTile env args st tile).cache = some tv ∧
        (processTile env args st tile).parses =
          st.parses ++ [refJpg ++ ".aux.xml"]) ∧
    (∀ (env : Env) (args : Args) (st : RunSt) (tile : Tile) (ab : ℕ × ℕ)
        (bf : String × Option String) (refJpg e : String),
      tile.isFile = true → parse_last_two tile.stem = some ab →
      env.extractBaseFrame (normalize_stem tile.stem) = some bf →
      env.chooseRef bf.1 bf.2 = some refJpg →
      env.auxExists (refJpg ++ ".aux.xml") = true →
      List.lookup refJpg st.cache = none →
      (env.parseAuxFile (refJpg ++ ".aux.xml")).bind validateAux = .error e →
      (processTile env args st tile).cache = st.cache ∧
        (processTile env args st tile).parses =
          st.parses ++ [refJpg ++ ".aux.xml"] ∧
        (processTile env args st tile).badRef = st.badRef + 1) := by
  refine ⟨runTiles_cache_mono, ?_, ?_⟩
  · intro env args st tile ab bf refJpg tv hfile hpar hbf href haux hcache hload
    rw [processTile_loadOk env args st tile ab bf refJpg tv hfile hpar hbf
      href haux hcache hload]
    obtain ⟨hc, hp⟩ := processLoaded_cache_parses env args
      { st with
        cache := st.cache ++ [(refJpg, tv)]
        parses := st.parses ++ [refJpg ++ ".aux.xml"] }
      tile (rowColOf args.swapRowcol ab).1 (rowColOf args.swapRowcol ab).2 tv
    rw [hc, hp]
    refine ⟨?_, rfl⟩
    rw [lookup_append_right_none refJpg st.cache [(refJpg, tv)] hcache]
    rw [List.lookup_cons]
    simp
  · intro env args st tile ab bf refJpg e hfile hpar hbf href haux hcache hload
    rw [processTile_loadFail env args st tile ab bf refJpg e hfile hpar hbf
      href haux hcache hload]
    exact ⟨rfl, rfl, rfl⟩

/-- C4 witness: the cache-hit part over a concrete run, the successful first
load of `xmlGoodRoot`, and the failing load with the `NotPAM` root, each at
concrete inputs through `C4_ref_parsed_once`. -/
theorem C4_ref_parsed_once_witness :
    (List.lookup "S.jpg" (runTiles envGood argsDefault stCached []).cache =
        some (xmlGoodRoot, gtGood) ∧
      (runTiles envGood argsDefault stCached []).parses.count
          ("S.jpg" ++ ".aux.xml") =
        stCached.parses.count ("S.jpg" ++ ".aux.xml")) ∧
    (List.lookup "R.jpg" (processTile envGood argsDefault st0 tileA).cache =
        some (xmlGoodRoot, gtGood) ∧
      (processTile envGood argsDefault st0 tileA).parses =
        st0.parses ++ ["R.jpg" ++ ".aux.xml"]) ∧
    ((processTile envBadTag argsDefault st0 tileA).cache = st0.cache ∧
      (processTile envBadTag argsDefault st0 tileA).parses =
        st0.parses ++ ["R.jpg" ++ ".aux.xml"] ∧
      (processTile envBadTag argsDefault st0 tileA).badRef = st0.badRef + 1) := by
  refine ⟨?_, ?_, ?_⟩
  · exact C4_ref_parsed_once.1 envGood argsDefault [] stCached "S.jpg"
      (xmlGoodRoot, gtGood) rfl
  · exact C4_ref_parsed_once.2.1 envGood argsDefault st0 tileA (0, 0)
      ("base", none) "R.jpg" (xmlGoodRoot, gtGood) rfl (by decide) rfl rfl rfl
      rfl
      (by
        show validateAux xmlGoodRoot = _
        exact validateAux_xmlGoodRoot)
  · exact C4_ref_parsed_once.2.2 envBadTag argsDefault st0 tileA (0, 0)
      ("base", none) "R.jpg" ("Unexpected root tag: " ++ "NotPAM") rfl
      (by decide) rfl rfl rfl rfl
      (by
        show validateAux (XML.elem "NotPAM" none []) = _
        rw [validateAux, if_pos (by rw [XML.tag_elem]; decide)]
        rfl)

/-- A directory entry whose stem has no trailing `_A_B` pattern. -/
def tileBad : Tile := ⟨"bad.jpg", "bad", true⟩

/-- C8: `parse_last_two` returns exactly the integers whose digits are the two
trailing digit runs of a stem of shape `..._A_B` (it is a pure function, so
the same stem always yields the same pair); any stem without that shape yields
`None`, in which case the main loop skips the tile and increments the skip
counter; with the swap flag the parsed pair is interpreted as (col, row)
instead of (row, col). -/
theorem C8_parse_last_two :
    (∀ p A B : List Char, A ≠ [] → A.all Char.isDigit = true → B ≠ [] →
      B.all Char.isDigit = true →
      parse_last_two ⟨p ++ '_' :: A ++ '_' :: B⟩ =
        some (digitsToNat A, digitsToNat B)) ∧
    (∀ (s : String) (x y : ℕ), parse_last_two s = some (x, y) →
      ∃ p A B : List Char, s.data = p ++ '_' :: A ++ '_' :: B ∧
        A ≠ [] ∧ A.all Char.isDigit = true ∧ B ≠ [] ∧
        B.all Char.isDigit = true ∧ x = digitsToNat A ∧ y = digitsToNat B) ∧
    (∀ (env : Env) (args : Args) (st : RunSt) (tile : Tile),
      tile.isFile = true → parse_last_two tile.stem = none →
      processTile env args st tile = { st with skipped := st.skipped + 1 }) ∧
    (∀ a b : ℕ, rowColOf true (a, b) = (b, a) ∧ rowColOf false (a, b) = (a, b)) := by
  refine ⟨?_, ?_, ?_, ?_⟩
  · intro p A B hA hAd hB hBd
    exact matchLastTwo_of_shape p A B hA hAd hB hBd
  · intro s x y h
    exact matchLastTwo_some_shape s.data x y h
  · intro env args st tile hfile hpar
    exact processTile_noParse env args st tile hfile hpar
  · intro a b
    exact ⟨rfl, rfl⟩

/-- C8 witness: the stem `x_12_34` parses to `(12, 34)`, its decomposition is
recovered, and a stem with no trailing pattern makes the loop skip the tile. -/
theorem C8_parse_last_two_witness :
    parse_last_two "x_12_34" = some (12, 34) ∧
    (∃ p A B : List Char, ("x_12_34" : String).data = p ++ '_' :: A ++ '_' :: B ∧
      A ≠ [] ∧ A.all Char.isDigit = true ∧ B ≠ [] ∧
      B.all Char.isDigit = true ∧ 12 = digitsToNat A ∧ 34 = digitsToNat B) ∧
    processTile envGood argsDefault st0 tileBad =
      { st0 with skipped := st0.skipped + 1 } := by
  have h1 : parse_last_two "x_12_34" = some (12, 34) :=
    C8_parse_last_two.1 "x".data ['1', '2'] ['3', '4'] (by decide) (by decide)
      (by decide) (by decide)
  refine ⟨h1, ?_, ?_⟩
  · exact C8_parse_last_two.2.1 "x_12_34" 12 34 h1
  · exact C8_parse_last_two.2.2.1 envGood argsDefault st0 tileBad rfl (by decide)
